import Mathlib

/-!
# clip_by_value kernel (`oneflow/customized/kernels/clip_by_value_kernel.h`)

A shallow embedding of the elementwise clamp kernel.  Device memory is a
store of element buffers addressed by their data pointer; every operation
threads a `Machine` (store plus a ghost trace of the effects performed)
and returns `none` where the C++ would read or write out of bounds or
dereference a null tensor.

The element type `T` of the template is a Lean type.  Where the order of `T`
matters it is either a linear order (`SpecClipFunctor`, the integer
instantiations) or a type compared through values that may be NaN
(`NumericClipFunctor`, the floating-point instantiations).
-/

namespace oneflow

/-! ## Machine state -/

/-- Effects recorded in the ghost trace of a run, in program order. -/
inductive Event where
  | Memcpy (dst src sz : Nat)
  | ByMinMax (num_values : Int) (values min_value max_value out_ptr : Nat)
  | ByMin (num_values : Int) (values min_value out_ptr : Nat)
  | ByMax (num_values : Int) (values max_value out_ptr : Nat)
  | Load (ptr idx : Nat)
  | Store (ptr idx : Nat)
  | Warning (msg : String)
  deriving DecidableEq, Repr

/-- The store (`mem p` is the content of the buffer whose data pointer is `p`)
and the trace of effects so far. -/
structure Machine (T : Type) where
  mem : Nat → List T
  log : List Event

/-- Append one event to the trace. -/
def Machine.emit {T : Type} (s : Machine T) (e : Event) : Machine T :=
  { s with log := s.log ++ [e] }

/-- The read `p[i]`; `none` when `i` is past the end of the buffer. -/
def Machine.load {T : Type} (s : Machine T) (p i : Nat) : Option (T × Machine T) :=
  match (s.mem p)[i]? with
  | some v => some (v, s.emit (Event.Load p i))
  | none => none

/-- The write `p[i] = v`; `none` when `i` is past the end of the buffer. -/
def Machine.store {T : Type} (s : Machine T) (p i : Nat) (v : T) : Option (Machine T) :=
  if i < (s.mem p).length then
    some { mem := Function.update s.mem p ((s.mem p).set i v),
           log := s.log ++ [Event.Store p i] }
  else none

/-! ## Operands -/

/-- Element type tag of a tensor (`DataType`), as its enumerator value. -/
abbrev DataType := Nat

/-- The part of `user_op::Tensor` the kernel uses: `dptr<T>()` / `mut_dptr<T>()`
(one pointer), `shape().elem_cnt()` and `data_type()`. -/
structure Tensor where
  dptr : Nat
  elem_cnt : Nat
  data_type : DataType
  deriving DecidableEq, Repr

/-- The part of `user_op::KernelContext` the kernel uses; a null tensor
pointer is `none`. -/
structure KernelContext where
  Tensor4ArgNameAndIndex : String → Nat → Option Tensor

/-! ## Bound comparator -/

/-- `ClipFunctor<device_type, T>` (lines 19-23): the two comparison primitives,
declared in the header and defined per device elsewhere; the executors are
parametric in them. -/
structure ClipFunctor (T : Type) where
  Min : T → T → T
  Max : T → T → T

/-- Modelled from the spec: the bodies of `ClipFunctor::Min` and
`ClipFunctor::Max`, which the header only declares.  Section 4.1:
`LowerClamp(value, lower)` returns `lower` if `value < lower`, else `value`
(this is `Max`, applied to `min_value`); `UpperClamp(value, upper)` returns
`upper` if `value > upper`, else `value` (this is `Min`, applied to
`max_value`). -/
def SpecClipFunctor (T : Type) [LinearOrder T] : ClipFunctor T where
  Min := fun value max_value => if value > max_value then max_value else value
  Max := fun value min_value => if value < min_value then min_value else value

/-- The comparison `a < b` of a numeric element type: `val x` is the value of
`x` in a linear order `K`, or `none` when `x` is a NaN, and every comparison
with a NaN is false (the floating-point comparison; `val = some` is a totally
ordered element type). -/
def valLt {T K : Type} [LinearOrder K] (val : T → Option K) (a b : T) : Bool :=
  match val a, val b with
  | some x, some y => decide (x < y)
  | _, _ => false

/-- The comparison `a <= b` of a numeric element type; false with a NaN. -/
def valLe {T K : Type} [LinearOrder K] (val : T → Option K) (a b : T) : Bool :=
  match val a, val b with
  | some x, some y => decide (x ≤ y)
  | _, _ => false

/-- Modelled from the spec: the bodies of `ClipFunctor::Min` and
`ClipFunctor::Max` of section 4.1, as `SpecClipFunctor`, for an element type
whose `<` and `>` compare values and are false with a NaN: `LowerClamp` returns
`lower` if `value < lower`, else `value`; `UpperClamp` returns `upper` if
`value > upper`, else `value`. -/
def NumericClipFunctor {T K : Type} [LinearOrder K] (val : T → Option K) : ClipFunctor T where
  Min := fun value max_value => if valLt val max_value value then max_value else value
  Max := fun value min_value => if valLt val value min_value then min_value else value

/-! ## Range-clamp executor -/

/-- Run `body` at each index of `idxs`, in that order. -/
def forIndices {σ : Type} (body : Nat → σ → Option σ) : List Nat → σ → Option σ
  | [], s => some s
  | i :: rest, s => (body i s).bind (forIndices body rest)

/-- Modelled from the spec: the macro `XPU_1D_KERNEL_LOOP(i, n)` of
`xpu_util.h`, on the host: "a single logical thread performs a strict
left-to-right scan over all `n` elements", i.e.
`for (int64_t i = 0; i < n; ++i)`. -/
def XPU_1D_KERNEL_LOOP {σ : Type} (n : Int) (body : Nat → σ → Option σ) (s : σ) : Option σ :=
  forIndices body (List.range n.toNat) s

/-- One iteration `out_ptr[i] = f(values[i])`. -/
def clipStep {T : Type} (f : T → T) (values out_ptr : Nat) (i : Nat) (s : Machine T) :
    Option (Machine T) :=
  match s.load values i with
  | some (v, s1) => s1.store out_ptr i (f v)
  | none => none

/-- `ClipValuesByMinMax` (lines 25-32). -/
def ClipValuesByMinMax {T : Type} (F : ClipFunctor T) (num_values : Int) (values : Nat)
    (min_value max_value : T) (out_ptr : Nat) (s : Machine T) : Option (Machine T) :=
  XPU_1D_KERNEL_LOOP num_values
    (clipStep (fun v => F.Min (F.Max v min_value) max_value) values out_ptr) s

/-- `ClipValuesByMin` (lines 34-40). -/
def ClipValuesByMin {T : Type} (F : ClipFunctor T) (num_values : Int) (values : Nat)
    (min_value : T) (out_ptr : Nat) (s : Machine T) : Option (Machine T) :=
  XPU_1D_KERNEL_LOOP num_values (clipStep (fun v => F.Max v min_value) values out_ptr) s

/-- `ClipValuesByMax` (lines 42-48). -/
def ClipValuesByMax {T : Type} (F : ClipFunctor T) (num_values : Int) (values : Nat)
    (max_value : T) (out_ptr : Nat) (s : Machine T) : Option (Machine T) :=
  XPU_1D_KERNEL_LOOP num_values (clipStep (fun v => F.Min v max_value) values out_ptr) s

/-- Modelled from the spec: `ClipValuesUtil<device_type, T>::ByMinMax`, declared
at lines 10-17 and defined per device elsewhere.  It takes the bounds as
pointers and the variant it runs takes them by value: each bound operand is
"a single broadcast" limit, so the executor reads the scalar behind each bound
pointer and runs the both-bounds variant with them. -/
def ClipValuesUtil.ByMinMax {T : Type} (F : ClipFunctor T) (num_values : Int)
    (values min_value max_value out_ptr : Nat) (s : Machine T) : Option (Machine T) :=
  match (s.emit (Event.ByMinMax num_values values min_value max_value out_ptr)).load
      min_value 0 with
  | some (lo, s1) =>
    match s1.load max_value 0 with
    | some (hi, s2) => ClipValuesByMinMax F num_values values lo hi out_ptr s2
    | none => none
  | none => none

/-- Modelled from the spec: `ClipValuesUtil<device_type, T>::ByMin`, declared at
lines 10-17: reads the scalar lower bound and runs the lower-only variant. -/
def ClipValuesUtil.ByMin {T : Type} (F : ClipFunctor T) (num_values : Int)
    (values min_value out_ptr : Nat) (s : Machine T) : Option (Machine T) :=
  match (s.emit (Event.ByMin num_values values min_value out_ptr)).load min_value 0 with
  | some (lo, s1) => ClipValuesByMin F num_values values lo out_ptr s1
  | none => none

/-- Modelled from the spec: `ClipValuesUtil<device_type, T>::ByMax`, declared at
lines 10-17: reads the scalar upper bound and runs the upper-only variant. -/
def ClipValuesUtil.ByMax {T : Type} (F : ClipFunctor T) (num_values : Int)
    (values max_value out_ptr : Nat) (s : Machine T) : Option (Machine T) :=
  match (s.emit (Event.ByMax num_values values max_value out_ptr)).load max_value 0 with
  | some (hi, s1) => ClipValuesByMax F num_values values hi out_ptr s1
  | none => none

/-! ## Kernel entry point -/

/-- What a template instantiation `ClipByValueKernel<device_type, T>` fixes
besides `T`: its comparator, and the byte size of each element type
(`GetSizeOfDataType`, defined outside the header). -/
structure KernelInst (T : Type) where
  functor : ClipFunctor T
  data_type : DataType
  GetSizeOfDataType : DataType → Nat

/-- Modelled from the spec: `Memcpy<device_type>(ctx, dst, src, sz)`, "a raw
memory copy between two buffers of a given byte length".  On buffers of
elements of `elem_size` bytes it copies the first `sz / elem_size` elements;
`none` when `sz` is not a whole number of elements or runs past either
buffer. -/
def Memcpy {T : Type} (elem_size : Nat) (dst src sz : Nat) (s : Machine T) :
    Option (Machine T) :=
  if elem_size * (sz / elem_size) = sz ∧ sz / elem_size ≤ (s.mem src).length
      ∧ sz / elem_size ≤ (s.mem dst).length then
    some { mem := Function.update s.mem dst
             ((s.mem src).take (sz / elem_size) ++ (s.mem dst).drop (sz / elem_size)),
           log := s.log ++ [Event.Memcpy dst src sz] }
  else none

/-- The text of the warning of line 84. -/
def noBoundsWarning : String :=
  "min_value and max_value do not exist, and so values will not change."

/-- `ClipByValueKernel<device_type, T>::Compute` (lines 61-86). -/
def Compute {T : Type} (K : KernelInst T) (ctx : KernelContext) (s : Machine T) :
    Option (Machine T) :=
  match ctx.Tensor4ArgNameAndIndex "in" 0, ctx.Tensor4ArgNameAndIndex "out" 0 with
  | some in_, some out =>
    let min := ctx.Tensor4ArgNameAndIndex "min" 0
    let max := ctx.Tensor4ArgNameAndIndex "max" 0
    let copied :=
      if in_.dptr ≠ out.dptr then
        Memcpy (K.GetSizeOfDataType K.data_type) out.dptr in_.dptr
          (out.elem_cnt * K.GetSizeOfDataType out.data_type) s
      else some s
    copied.bind fun s1 =>
      match min, max with
      | some min, some max =>
        ClipValuesUtil.ByMinMax K.functor in_.elem_cnt in_.dptr min.dptr max.dptr out.dptr s1
      | some min, none =>
        ClipValuesUtil.ByMin K.functor in_.elem_cnt in_.dptr min.dptr out.dptr s1
      | none, some max =>
        ClipValuesUtil.ByMax K.functor in_.elem_cnt in_.dptr max.dptr out.dptr s1
      | none, none => some (s1.emit (Event.Warning noBoundsWarning))
  | _, _ => none

/-- A context holding the four operands of one call. -/
def mkContext (in_ : Tensor) (min max : Option Tensor) (out : Tensor) : KernelContext where
  Tensor4ArgNameAndIndex := fun name index =>
    if index ≠ 0 then none
    else if name = "in" then some in_
    else if name = "min" then min
    else if name = "max" then max
    else if name = "out" then some out
    else none


/-! ## Closed forms used by the statements -/

/-- The trace of the scan over `idxs`: each iteration reads `values[i]` and
then writes `out_ptr[i]`. -/
def scanTrace (values out_ptr : Nat) : List Nat → List Event
  | [] => []
  | i :: rest => Event.Load values i :: Event.Store out_ptr i :: scanTrace values out_ptr rest

/-- The machine after a scan of the first `n` indices applying `f`. -/
def clipResult {T : Type} (f : T → T) (values out_ptr n : Nat) (s : Machine T) : Machine T :=
  { mem := Function.update s.mem out_ptr
      (((s.mem values).take n).map f ++ (s.mem out_ptr).drop n),
    log := s.log ++ scanTrace values out_ptr (List.range n) }

/-- The context hands out exactly these four operands. -/
structure KernelContext.Binds (ctx : KernelContext) (tin : Tensor) (omin omax : Option Tensor)
    (tout : Tensor) : Prop where
  in_eq : ctx.Tensor4ArgNameAndIndex "in" 0 = some tin
  min_eq : ctx.Tensor4ArgNameAndIndex "min" 0 = omin
  max_eq : ctx.Tensor4ArgNameAndIndex "max" 0 = omax
  out_eq : ctx.Tensor4ArgNameAndIndex "out" 0 = some tout

/-- The caller-side contract on `in` and `out`: both have `n` elements, in
buffers of `n` elements, and `out` has the element type of the instantiation
(whose elements have a positive byte size). -/
structure WellSized {T : Type} (K : KernelInst T) (s : Machine T) (tin tout : Tensor)
    (n : Nat) : Prop where
  in_cnt : tin.elem_cnt = n
  out_cnt : tout.elem_cnt = n
  in_len : (s.mem tin.dptr).length = n
  out_len : (s.mem tout.dptr).length = n
  out_type : tout.data_type = K.data_type
  size_pos : 0 < K.GetSizeOfDataType K.data_type

/-- The optional bound operand `ot` carries the scalar `b`: if present, element
0 of its buffer is `b`, and the copy into `out` does not overwrite that buffer
(it is not the `out` buffer, unless `out` aliases `in` and nothing is copied). -/
def HoldsBound {T : Type} (s : Machine T) (tin tout : Tensor) (ot : Option Tensor) (b : T) :
    Prop :=
  ∀ t, ot = some t → (s.mem t.dptr)[0]? = some b ∧ (t.dptr = tout.dptr → tin.dptr = tout.dptr)

/-- The function a call applies to each element, by bound presence. -/
def clampOf {T : Type} (F : ClipFunctor T) (omin omax : Option Tensor) (lo hi : T) : T → T :=
  match omin, omax with
  | some _, some _ => fun v => F.Min (F.Max v lo) hi
  | some _, none => fun v => F.Max v lo
  | none, some _ => fun v => F.Min v hi
  | none, none => fun v => v

/-- The events of the copy step of a call. -/
def copyTrace {T : Type} (K : KernelInst T) (tin tout : Tensor) : List Event :=
  if tin.dptr ≠ tout.dptr then
    [Event.Memcpy tout.dptr tin.dptr (tout.elem_cnt * K.GetSizeOfDataType tout.data_type)]
  else []

/-- The events of the branch on bound presence of a call. -/
def branchTrace (tin tout : Tensor) (omin omax : Option Tensor) : List Event :=
  match omin, omax with
  | some tmin, some tmax =>
    Event.ByMinMax tin.elem_cnt tin.dptr tmin.dptr tmax.dptr tout.dptr
      :: Event.Load tmin.dptr 0 :: Event.Load tmax.dptr 0
      :: scanTrace tin.dptr tout.dptr (List.range tin.elem_cnt)
  | some tmin, none =>
    Event.ByMin tin.elem_cnt tin.dptr tmin.dptr tout.dptr
      :: Event.Load tmin.dptr 0 :: scanTrace tin.dptr tout.dptr (List.range tin.elem_cnt)
  | none, some tmax =>
    Event.ByMax tin.elem_cnt tin.dptr tmax.dptr tout.dptr
      :: Event.Load tmax.dptr 0 :: scanTrace tin.dptr tout.dptr (List.range tin.elem_cnt)
  | none, none => [Event.Warning noBoundsWarning]

/-- Whether an event is a warning. -/
def Event.isWarning : Event → Bool
  | Event.Warning _ => true
  | _ => false

/-- Whether an event is the invocation of a clamp variant or one of its
element accesses. -/
def Event.isClamp : Event → Bool
  | Event.ByMinMax _ _ _ _ _ => true
  | Event.ByMin _ _ _ _ => true
  | Event.ByMax _ _ _ _ => true
  | Event.Load _ _ => true
  | Event.Store _ _ => true
  | _ => false

/-- Whether an event is a buffer copy. -/
def Event.isMemcpy : Event → Bool
  | Event.Memcpy _ _ _ => true
  | _ => false

/-- Whether an event is an element write. -/
def Event.isStore : Event → Bool
  | Event.Store _ _ => true
  | _ => false

/-- The pointers a variant invocation is given to read its values from and to
write its results to. -/
def Event.clampBuffers : Event → Option (Nat × Nat)
  | Event.ByMinMax _ values _ _ out_ptr => some (values, out_ptr)
  | Event.ByMin _ values _ out_ptr => some (values, out_ptr)
  | Event.ByMax _ values _ out_ptr => some (values, out_ptr)
  | _ => none

/-- The body of `Compute` without the copy step of lines 68-71: the branch on
bound presence of lines 73-85 alone. -/
def ComputeSkipCopy {T : Type} (K : KernelInst T) (ctx : KernelContext) (s : Machine T) :
    Option (Machine T) :=
  match ctx.Tensor4ArgNameAndIndex "in" 0, ctx.Tensor4ArgNameAndIndex "out" 0 with
  | some in_, some out =>
    let min := ctx.Tensor4ArgNameAndIndex "min" 0
    let max := ctx.Tensor4ArgNameAndIndex "max" 0
    match min, max with
    | some min, some max =>
      ClipValuesUtil.ByMinMax K.functor in_.elem_cnt in_.dptr min.dptr max.dptr out.dptr s
    | some min, none =>
      ClipValuesUtil.ByMin K.functor in_.elem_cnt in_.dptr min.dptr out.dptr s
    | none, some max =>
      ClipValuesUtil.ByMax K.functor in_.elem_cnt in_.dptr max.dptr out.dptr s
    | none, none => some (s.emit (Event.Warning noBoundsWarning))
  | _, _ => none

/-! ## Registration -/

/-- Device type tag of a kernel (`DeviceType`), as its enumerator value. -/
abbrev DeviceType := Nat

/-- The part of `user_op::TensorDesc` the match predicate uses. -/
structure TensorDesc where
  data_type : DataType
  deriving DecidableEq, Repr

/-- The part of `user_op::KernelRegContext` the match predicate uses; a null
descriptor pointer is `none`. -/
structure KernelRegContext where
  device_type : DeviceType
  TensorDesc4ArgNameAndIndex : String → Nat → Option TensorDesc

/-- The predicate `REGISTER_CLIP_BY_VALUE_KERNEL(device_type_v, dtype_pair)`
passes to `SetIsMatchedPred` (lines 93-100); `dtype` is
`OF_PP_PAIR_SECOND(dtype_pair)`.  The `&&` reads `out_desc->data_type()` only
when the device types are equal; `none` where that read would dereference a
null descriptor. -/
def IsMatchedPred (device_type_v : DeviceType) (dtype : DataType) (ctx : KernelRegContext) :
    Option Bool :=
  let out_desc := ctx.TensorDesc4ArgNameAndIndex "out" 0
  if ctx.device_type = device_type_v then
    match out_desc with
    | some d => if d.data_type = dtype then some true else some false
    | none => none
  else some false

/-- The arguments of one call of the `AddInplaceArgPair` callback. -/
structure InplaceArgPair where
  obn : String
  obn_index : Nat
  ibn : String
  ibn_index : Nat
  is_mutable : Bool
  deriving DecidableEq, Repr

/-- The callback type `user_op::AddInplaceArgPair`: a function of the five
arguments returning `Maybe<void>` (`Except ε Unit`), with the state `σ` it
captures passed explicitly. -/
abbrev AddInplaceArgPair (σ ε : Type) :=
  String → Nat → String → Nat → Bool → σ → Except ε Unit × σ

/-- Modelled from the spec: the macro `OF_RETURN_IF_ERROR(expr)`, which the
header uses and does not define, and which the spec does not describe beyond
the declaration it guards; as it is named, it returns the error of `expr` from
the enclosing function and otherwise lets the function continue. -/
def OF_RETURN_IF_ERROR {ε α : Type} (expr : Except ε Unit) (cont : Except ε α) : Except ε α :=
  match expr with
  | Except.error e => Except.error e
  | Except.ok _ => cont

/-- The function `REGISTER_CLIP_BY_VALUE_KERNEL` passes to
`SetInplaceProposalFn` (lines 101-105); its inference context is not used. -/
def InplaceProposalFn {C σ ε : Type} (_ctx : C) (AddInplaceArgPairFn : AddInplaceArgPair σ ε)
    (st : σ) : Except ε Unit × σ :=
  (OF_RETURN_IF_ERROR (AddInplaceArgPairFn "out" 0 "in" 0 true st).1 (Except.ok ()),
   (AddInplaceArgPairFn "out" 0 "in" 0 true st).2)

/-- A callback that behaves as `add` and also appends the arguments of each
call to a list. -/
def recordCalls {σ ε : Type} (add : AddInplaceArgPair σ ε) :
    AddInplaceArgPair (σ × List InplaceArgPair) ε :=
  fun obn obn_index ibn ibn_index is_mutable st =>
    ((add obn obn_index ibn ibn_index is_mutable st.1).1,
     ((add obn obn_index ibn ibn_index is_mutable st.1).2,
      st.2 ++ [⟨obn, obn_index, ibn, ibn_index, is_mutable⟩]))

/-! ## Sample data -/

/-- A sample store: buffer 1 is `[-2, 0, 3, 7, 10]`, buffers 2 and 3 hold the
scalars 0 and 5, buffer 4 is a five-element buffer of other content, buffer 5
is `[1, 2, 3]`, buffer 6 holds the scalar 2, buffer 7 is a three-element buffer
of other content, buffer 8 is `[-5, 0, 5]`, buffers 9 and 10 hold the scalars
-1 and 1, buffer 11 is a three-element buffer of other content. -/
def sampleMem : Nat → List Int
  | 1 => [-2, 0, 3, 7, 10]
  | 2 => [0]
  | 3 => [5]
  | 4 => [9, 9, 9, 9, 9]
  | 5 => [1, 2, 3]
  | 6 => [2]
  | 7 => [8, 8, 8]
  | 8 => [-5, 0, 5]
  | 9 => [-1]
  | 10 => [1]
  | 11 => [7, 7, 7]
  | _ => []

/-- The sample store with an empty trace. -/
def sampleMachine : Machine Int := ⟨sampleMem, []⟩

/-- The instantiation for a 4-byte integer element type (tag 5) with the
comparator of the spec. -/
def sampleInst : KernelInst Int := ⟨SpecClipFunctor Int, 5, fun _ => 4⟩

/-- A sample store of elements that are an integer value or a NaN (`none`):
buffer 1 is `[NaN, 0, 3, 7, 10]`, buffer 4 is a five-element buffer of other
content. -/
def nanMem : Nat → List (Option Int)
  | 1 => [none, some 0, some 3, some 7, some 10]
  | 4 => [some 9, some 9, some 9, some 9, some 9]
  | _ => []

/-- The sample store with NaN, with an empty trace. -/
def nanMachine : Machine (Option Int) := ⟨nanMem, []⟩

/-! ## Lemmas on the scan -/

theorem forIndices_append {σ : Type} (body : Nat → σ → Option σ) (xs ys : List Nat) (s : σ) :
    forIndices body (xs ++ ys) s = (forIndices body xs s).bind (forIndices body ys) := by
  induction xs generalizing s with
  | nil => simp [forIndices]
  | cons i rest ih =>
    simp only [List.cons_append, forIndices]
    cases h : body i s with
    | none => simp
    | some s1 => simp [ih]

theorem scanTrace_append (values out_ptr : Nat) (xs ys : List Nat) :
    scanTrace values out_ptr (xs ++ ys)
      = scanTrace values out_ptr xs ++ scanTrace values out_ptr ys := by
  induction xs with
  | nil => simp [scanTrace]
  | cons i rest ih => simp [scanTrace, ih]

theorem set_take_map_drop {T : Type} (f : T → T) (xs ys : List T) (n : Nat)
    (hx : n < xs.length) (hy : n < ys.length) :
    ((xs.take n).map f ++ ys.drop n).set n (f (xs[n]))
      = (xs.take (n + 1)).map f ++ ys.drop (n + 1) := by
  have hlen : ((xs.take n).map f).length = n := by simp; omega
  rw [List.set_append_right _ _ (by omega)]
  rw [hlen, Nat.sub_self]
  rw [List.take_succ, List.getElem?_eq_getElem hx]
  rw [List.drop_eq_getElem_cons hy]
  simp only [List.set_cons_zero, Option.toList_some, List.map_append, List.map_cons,
    List.map_nil, List.append_assoc, List.singleton_append]

theorem clipStep_clipResult {T : Type} (f : T → T) (values out_ptr n : Nat) (s : Machine T)
    (hv : n < (s.mem values).length) (ho : n < (s.mem out_ptr).length) :
    clipStep f values out_ptr n (clipResult f values out_ptr n s)
      = some (clipResult f values out_ptr (n + 1) s) := by
  have hread : ((clipResult f values out_ptr n s).mem values)[n]? = some ((s.mem values)[n]) := by
    by_cases h : values = out_ptr
    · subst h
      simp only [clipResult, Function.update_same]
      have hl : ((List.take n (s.mem values)).map f).length = n := by simp; omega
      rw [List.getElem?_append_right (by omega), hl, Nat.sub_self, List.getElem?_drop]
      simp [List.getElem?_eq_getElem hv]
    · simp only [clipResult, Function.update_noteq h]
      exact List.getElem?_eq_getElem hv
  simp only [clipStep, Machine.load, hread, Machine.store, Machine.emit]
  have hlen : n < ((clipResult f values out_ptr n s).mem out_ptr).length := by
    simp [clipResult]; omega
  rw [if_pos hlen]
  simp only [clipResult, Function.update_same, Function.update_idem, List.range_succ,
    scanTrace_append, scanTrace, List.append_assoc, List.cons_append, List.nil_append,
    List.singleton_append]
  rw [set_take_map_drop f _ _ n hv ho]

theorem forIndices_clipStep_range {T : Type} (f : T → T) (values out_ptr : Nat) (s : Machine T)
    (n : Nat) (hv : n ≤ (s.mem values).length) (ho : n ≤ (s.mem out_ptr).length) :
    forIndices (clipStep f values out_ptr) (List.range n) s
      = some (clipResult f values out_ptr n s) := by
  induction n with
  | zero =>
    simp [forIndices, clipResult, scanTrace]
  | succ k ih =>
    rw [List.range_succ, forIndices_append, ih (by omega) (by omega)]
    simp only [Option.some_bind, forIndices]
    rw [clipStep_clipResult f values out_ptr k s (by omega) (by omega)]
    rfl

/-! ## Closed forms of the variants and of the entry point -/

theorem ClipValuesByMinMax_eq {T : Type} (F : ClipFunctor T) (num_values : Int)
    (values out_ptr : Nat) (min_value max_value : T) (s : Machine T)
    (hv : num_values.toNat ≤ (s.mem values).length)
    (ho : num_values.toNat ≤ (s.mem out_ptr).length) :
    ClipValuesByMinMax F num_values values min_value max_value out_ptr s
      = some (clipResult (fun v => F.Min (F.Max v min_value) max_value) values out_ptr
          num_values.toNat s) :=
  forIndices_clipStep_range _ values out_ptr s num_values.toNat hv ho

theorem ClipValuesByMin_eq {T : Type} (F : ClipFunctor T) (num_values : Int)
    (values out_ptr : Nat) (min_value : T) (s : Machine T)
    (hv : num_values.toNat ≤ (s.mem values).length)
    (ho : num_values.toNat ≤ (s.mem out_ptr).length) :
    ClipValuesByMin F num_values values min_value out_ptr s
      = some (clipResult (fun v => F.Max v min_value) values out_ptr num_values.toNat s) :=
  forIndices_clipStep_range _ values out_ptr s num_values.toNat hv ho

theorem ClipValuesByMax_eq {T : Type} (F : ClipFunctor T) (num_values : Int)
    (values out_ptr : Nat) (max_value : T) (s : Machine T)
    (hv : num_values.toNat ≤ (s.mem values).length)
    (ho : num_values.toNat ≤ (s.mem out_ptr).length) :
    ClipValuesByMax F num_values values max_value out_ptr s
      = some (clipResult (fun v => F.Min v max_value) values out_ptr num_values.toNat s) :=
  forIndices_clipStep_range _ values out_ptr s num_values.toNat hv ho

/-- The content of output index `i` after a scan of `n ≥ i + 1` indices. -/
theorem clipResult_getElem? {T : Type} (f : T → T) (values out_ptr n : Nat) (s : Machine T)
    (i : Nat) (v : T) (hi : i < n) (hv : (s.mem values)[i]? = some v) :
    ((clipResult f values out_ptr n s).mem out_ptr)[i]? = some (f v) := by
  have hlt : i < (s.mem values).length := by
    rcases List.getElem?_eq_some.mp hv with ⟨h, _⟩
    exact h
  simp only [clipResult, Function.update_same]
  rw [List.getElem?_append_left (by simp; omega)]
  simp [List.getElem?_take_of_lt hi, hv]

/-- The copy step leaves `out` holding the content of `in`, aliased or not. -/
theorem copy_step_eq {T : Type} (K : KernelInst T) (s : Machine T) (tin tout : Tensor) (n : Nat)
    (ws : WellSized K s tin tout n) :
    (if tin.dptr ≠ tout.dptr then
        Memcpy (K.GetSizeOfDataType K.data_type) tout.dptr tin.dptr
          (tout.elem_cnt * K.GetSizeOfDataType tout.data_type) s
      else some s)
      = some { mem := Function.update s.mem tout.dptr (s.mem tin.dptr),
               log := s.log ++ copyTrace K tin tout } := by
  by_cases h : tin.dptr = tout.dptr
  · have hm : Function.update s.mem tout.dptr (s.mem tin.dptr) = s.mem := by
      rw [h]; exact Function.update_eq_self _ _
    simp [h, copyTrace, hm]
  · have hdiv : tout.elem_cnt * K.GetSizeOfDataType K.data_type
        / K.GetSizeOfDataType K.data_type = n := by
      rw [ws.out_cnt]; exact Nat.mul_div_cancel _ ws.size_pos
    simp only [ne_eq, h, not_false_eq_true, if_true, Memcpy, copyTrace, ws.out_type, hdiv]
    rw [if_pos ⟨by rw [ws.out_cnt, Nat.mul_comm], by rw [ws.in_len], by rw [ws.out_len]⟩]
    have h1 : List.take n (s.mem tin.dptr) = s.mem tin.dptr :=
      List.take_of_length_le (by rw [ws.in_len])
    have h2 : List.drop n (s.mem tout.dptr) = [] :=
      List.drop_of_length_le (by rw [ws.out_len])
    rw [h1, h2, List.append_nil]

/-- A buffer the copy step does not overwrite keeps its content. -/
theorem mem_after_copy {T : Type} (s : Machine T) (tin tout : Tensor) (p : Nat)
    (h : p = tout.dptr → tin.dptr = tout.dptr) :
    Function.update s.mem tout.dptr (s.mem tin.dptr) p = s.mem p := by
  by_cases hp : p = tout.dptr
  · subst hp
    rw [Function.update_same, h rfl]
  · exact Function.update_noteq hp _ _

/-- The scan of a call, run after the copy step. -/
theorem clipResult_after_copy {T : Type} (K : KernelInst T) (s : Machine T) (tin tout : Tensor)
    (n : Nat) (ws : WellSized K s tin tout n) (f : T → T) (log : List Event) :
    clipResult f tin.dptr tout.dptr n
        { mem := Function.update s.mem tout.dptr (s.mem tin.dptr), log := log }
      = { mem := Function.update s.mem tout.dptr ((s.mem tin.dptr).map f),
          log := log ++ scanTrace tin.dptr tout.dptr (List.range n) } := by
  have hin : Function.update s.mem tout.dptr (s.mem tin.dptr) tin.dptr = s.mem tin.dptr :=
    mem_after_copy s tin tout tin.dptr (fun h => h)
  have h1 : List.take n (s.mem tin.dptr) = s.mem tin.dptr :=
    List.take_of_length_le (by rw [ws.in_len])
  have h2 : List.drop n (s.mem tin.dptr) = [] :=
    List.drop_of_length_le (by rw [ws.in_len])
  simp only [clipResult, hin, Function.update_same, Function.update_idem, h1, h2,
    List.append_nil]

/-- Closed form of `Compute` on a well-formed call, for the four bound
configurations. -/
theorem Compute_eq {T : Type} (K : KernelInst T) (ctx : KernelContext) (s : Machine T)
    (tin tout : Tensor) (omin omax : Option Tensor) (n : Nat) (lo hi : T)
    (hctx : ctx.Binds tin omin omax tout) (ws : WellSized K s tin tout n)
    (hlo : HoldsBound s tin tout omin lo) (hhi : HoldsBound s tin tout omax hi) :
    Compute K ctx s
      = some { mem := Function.update s.mem tout.dptr
                 ((s.mem tin.dptr).map (clampOf K.functor omin omax lo hi)),
               log := s.log ++ copyTrace K tin tout ++ branchTrace tin tout omin omax } := by
  have hn : (Int.toNat (tin.elem_cnt : Int)) = n := by rw [Int.toNat_ofNat, ws.in_cnt]
  have hlen : ∀ l : List Event, (Int.toNat (tin.elem_cnt : Int)) ≤
      ((⟨Function.update s.mem tout.dptr (s.mem tin.dptr), l⟩ : Machine T).mem tin.dptr).length
      ∧ (Int.toNat (tin.elem_cnt : Int)) ≤
      ((⟨Function.update s.mem tout.dptr (s.mem tin.dptr), l⟩ : Machine T).mem tout.dptr).length := by
    intro l
    simp only [hn, mem_after_copy s tin tout tin.dptr (fun h => h), Function.update_same,
      ws.in_len, le_refl, and_self]
  unfold Compute
  simp only [hctx.in_eq, hctx.out_eq, hctx.min_eq, hctx.max_eq, copy_step_eq K s tin tout n ws,
    Option.some_bind]
  cases omin with
  | none =>
    cases omax with
    | none => simp [Machine.emit, clampOf, branchTrace]
    | some tmax =>
      obtain ⟨hb, hne⟩ := hhi tmax rfl
      simp only [ClipValuesUtil.ByMax, Machine.load, Machine.emit,
        mem_after_copy s tin tout tmax.dptr hne, hb]
      rw [ClipValuesByMax_eq _ _ _ _ _ _ (hlen _).1 (hlen _).2, hn,
        clipResult_after_copy K s tin tout n ws]
      simp [clampOf, branchTrace, ws.in_cnt]
  | some tmin =>
    obtain ⟨hbl, hnel⟩ := hlo tmin rfl
    cases omax with
    | none =>
      simp only [ClipValuesUtil.ByMin, Machine.load, Machine.emit,
        mem_after_copy s tin tout tmin.dptr hnel, hbl]
      rw [ClipValuesByMin_eq _ _ _ _ _ _ (hlen _).1 (hlen _).2, hn,
        clipResult_after_copy K s tin tout n ws]
      simp [clampOf, branchTrace, ws.in_cnt]
    | some tmax =>
      obtain ⟨hb, hne⟩ := hhi tmax rfl
      simp only [ClipValuesUtil.ByMinMax, Machine.load, Machine.emit,
        mem_after_copy s tin tout tmin.dptr hnel, hbl,
        mem_after_copy s tin tout tmax.dptr hne, hb]
      rw [ClipValuesByMinMax_eq _ _ _ _ _ _ _ (hlen _).1 (hlen _).2, hn,
        clipResult_after_copy K s tin tout n ws]
      simp [clampOf, branchTrace, ws.in_cnt]

/-! ## The comparator of the spec -/

theorem SpecClipFunctor_Max_eq {T : Type} [LinearOrder T] (value min_value : T) :
    (SpecClipFunctor T).Max value min_value = max value min_value := by
  show (if value < min_value then min_value else value) = max value min_value
  split_ifs with h
  · exact (max_eq_right (le_of_lt h)).symm
  · exact (max_eq_left (not_lt.mp h)).symm

theorem SpecClipFunctor_Min_eq {T : Type} [LinearOrder T] (value max_value : T) :
    (SpecClipFunctor T).Min value max_value = min value max_value := by
  show (if value > max_value then max_value else value) = min value max_value
  split_ifs with h
  · exact (min_eq_right (le_of_lt h)).symm
  · exact (min_eq_left (not_lt.mp h)).symm

/-! ## The three variants (C2, C3, C4) -/

/-- C2: the both-bounds variant `ClipValuesByMinMax`.  For every element count,
every input and output buffer holding at least that many elements (the same
buffer or two buffers), every pair of bounds and every index `0 ≤ i <
num_values`, the call returns and `output[i] = Min(Max(input[i], min_value),
max_value)`: the lower clamp `ClipFunctor::Max` is applied first and the upper
clamp `ClipFunctor::Min` second, with the scalar bounds passed for every
index. -/
theorem ClipValuesByMinMax_index {T : Type} (F : ClipFunctor T) (num_values : Int)
    (values out_ptr : Nat) (min_value max_value : T) (s : Machine T)
    (hv : num_values.toNat ≤ (s.mem values).length)
    (ho : num_values.toNat ≤ (s.mem out_ptr).length) :
    ∃ s1, ClipValuesByMinMax F num_values values min_value max_value out_ptr s = some s1 ∧
      ∀ (i : Nat) (v : T), (i : Int) < num_values → (s.mem values)[i]? = some v →
        (s1.mem out_ptr)[i]? = some (F.Min (F.Max v min_value) max_value) := by
  refine ⟨_, ClipValuesByMinMax_eq F num_values values out_ptr min_value max_value s hv ho, ?_⟩
  intro i v hi hget
  exact clipResult_getElem? _ values out_ptr _ s i v (by omega) hget

/-- C3: the lower-only variant `ClipValuesByMin` with the comparator of the
spec.  For every element count, buffers holding at least that many elements,
every lower bound and every index `0 ≤ i < num_values`, the call returns and
`output[i] = LowerClamp(input[i], min_value)`, where `LowerClamp` (that is
`ClipFunctor::Max`) returns the bound if the value is below it and the value
otherwise, which is `max(input[i], min_value)`. -/
theorem ClipValuesByMin_index {T : Type} [LinearOrder T] (num_values : Int)
    (values out_ptr : Nat) (min_value : T) (s : Machine T)
    (hv : num_values.toNat ≤ (s.mem values).length)
    (ho : num_values.toNat ≤ (s.mem out_ptr).length) :
    ∃ s1, ClipValuesByMin (SpecClipFunctor T) num_values values min_value out_ptr s = some s1 ∧
      ∀ (i : Nat) (v : T), (i : Int) < num_values → (s.mem values)[i]? = some v →
        (s1.mem out_ptr)[i]? = some ((SpecClipFunctor T).Max v min_value)
        ∧ (SpecClipFunctor T).Max v min_value = (if v < min_value then min_value else v)
        ∧ (SpecClipFunctor T).Max v min_value = max v min_value := by
  refine ⟨_, ClipValuesByMin_eq (SpecClipFunctor T) num_values values out_ptr min_value s hv ho,
    ?_⟩
  intro i v hi hget
  exact ⟨clipResult_getElem? _ values out_ptr _ s i v (by omega) hget, rfl,
    SpecClipFunctor_Max_eq v min_value⟩

/-- C4: the upper-only variant `ClipValuesByMax` with the comparator of the
spec.  For every element count, buffers holding at least that many elements,
every upper bound and every index `0 ≤ i < num_values`, the call returns and
`output[i] = UpperClamp(input[i], max_value)`, where `UpperClamp` (that is
`ClipFunctor::Min`) returns the bound if the value is above it and the value
otherwise, which is `min(input[i], max_value)`. -/
theorem ClipValuesByMax_index {T : Type} [LinearOrder T] (num_values : Int)
    (values out_ptr : Nat) (max_value : T) (s : Machine T)
    (hv : num_values.toNat ≤ (s.mem values).length)
    (ho : num_values.toNat ≤ (s.mem out_ptr).length) :
    ∃ s1, ClipValuesByMax (SpecClipFunctor T) num_values values max_value out_ptr s = some s1 ∧
      ∀ (i : Nat) (v : T), (i : Int) < num_values → (s.mem values)[i]? = some v →
        (s1.mem out_ptr)[i]? = some ((SpecClipFunctor T).Min v max_value)
        ∧ (SpecClipFunctor T).Min v max_value = (if v > max_value then max_value else v)
        ∧ (SpecClipFunctor T).Min v max_value = min v max_value := by
  refine ⟨_, ClipValuesByMax_eq (SpecClipFunctor T) num_values values out_ptr max_value s hv ho,
    ?_⟩
  intro i v hi hget
  exact ⟨clipResult_getElem? _ values out_ptr _ s i v (by omega) hget, rfl,
    SpecClipFunctor_Min_eq v max_value⟩

/-- Witness of C2: the scan of `[-2, 0, 3, 7, 10]` into a second buffer with
bounds 0 and 5. -/
theorem ClipValuesByMinMax_index_witness :
    ((5 : Int).toNat ≤ (sampleMachine.mem 1).length
      ∧ (5 : Int).toNat ≤ (sampleMachine.mem 4).length)
    ∧ ∃ s1, ClipValuesByMinMax (SpecClipFunctor Int) 5 1 0 5 4 sampleMachine = some s1 ∧
      ∀ (i : Nat) (v : Int), (i : Int) < 5 → (sampleMachine.mem 1)[i]? = some v →
        (s1.mem 4)[i]? = some ((SpecClipFunctor Int).Min ((SpecClipFunctor Int).Max v 0) 5) :=
  ⟨by decide, ClipValuesByMinMax_index (SpecClipFunctor Int) 5 1 4 0 5 sampleMachine
    (by decide) (by decide)⟩

/-- Witness of C3: the in-place scan of `[-2, 0, 3, 7, 10]` with lower bound 0. -/
theorem ClipValuesByMin_index_witness :
    ((5 : Int).toNat ≤ (sampleMachine.mem 1).length)
    ∧ ∃ s1, ClipValuesByMin (SpecClipFunctor Int) 5 1 0 1 sampleMachine = some s1 ∧
      ∀ (i : Nat) (v : Int), (i : Int) < 5 → (sampleMachine.mem 1)[i]? = some v →
        (s1.mem 1)[i]? = some ((SpecClipFunctor Int).Max v 0)
        ∧ (SpecClipFunctor Int).Max v 0 = (if v < 0 then 0 else v)
        ∧ (SpecClipFunctor Int).Max v 0 = max v 0 :=
  ⟨by decide, ClipValuesByMin_index 5 1 1 0 sampleMachine (by decide) (by decide)⟩

/-- Witness of C4: the scan of `[-2, 0, 3, 7, 10]` into a second buffer with
upper bound 5. -/
theorem ClipValuesByMax_index_witness :
    ((5 : Int).toNat ≤ (sampleMachine.mem 1).length
      ∧ (5 : Int).toNat ≤ (sampleMachine.mem 4).length)
    ∧ ∃ s1, ClipValuesByMax (SpecClipFunctor Int) 5 1 5 4 sampleMachine = some s1 ∧
      ∀ (i : Nat) (v : Int), (i : Int) < 5 → (sampleMachine.mem 1)[i]? = some v →
        (s1.mem 4)[i]? = some ((SpecClipFunctor Int).Min v 5)
        ∧ (SpecClipFunctor Int).Min v 5 = (if v > 5 then 5 else v)
        ∧ (SpecClipFunctor Int).Min v 5 = min v 5 :=
  ⟨by decide, ClipValuesByMax_index 5 1 4 5 sampleMachine (by decide) (by decide)⟩

/-! ## Frame of every run -/

theorem load_mem {T : Type} (s s1 : Machine T) (p i : Nat) (v : T)
    (h : s.load p i = some (v, s1)) : s1.mem = s.mem := by
  unfold Machine.load at h
  cases hg : (s.mem p)[i]? with
  | none => rw [hg] at h; cases h
  | some w =>
    rw [hg] at h
    simp only [Option.some.injEq, Prod.mk.injEq] at h
    rw [← h.2]
    rfl

theorem store_frame {T : Type} (s s1 : Machine T) (p i : Nat) (v : T)
    (h : s.store p i v = some s1) (b : Nat) (hb : b ≠ p) : s1.mem b = s.mem b := by
  unfold Machine.store at h
  split_ifs at h
  simp only [Option.some.injEq] at h
  rw [← h]
  exact Function.update_noteq hb _ _

theorem clipStep_frame {T : Type} (f : T → T) (values out_ptr i : Nat) (s s1 : Machine T)
    (h : clipStep f values out_ptr i s = some s1) (b : Nat) (hb : b ≠ out_ptr) :
    s1.mem b = s.mem b := by
  unfold clipStep at h
  cases hl : s.load values i with
  | none => rw [hl] at h; cases h
  | some r =>
    obtain ⟨v, s0⟩ := r
    rw [hl] at h
    rw [store_frame s0 s1 out_ptr i (f v) h b hb, load_mem s s0 values i v hl]

theorem forIndices_clipStep_frame {T : Type} (f : T → T) (values out_ptr : Nat)
    (idxs : List Nat) (s s1 : Machine T)
    (h : forIndices (clipStep f values out_ptr) idxs s = some s1) (b : Nat)
    (hb : b ≠ out_ptr) : s1.mem b = s.mem b := by
  induction idxs generalizing s with
  | nil =>
    simp only [forIndices, Option.some.injEq] at h
    rw [h]
  | cons i rest ih =>
    simp only [forIndices] at h
    cases hs : clipStep f values out_ptr i s with
    | none => rw [hs] at h; cases h
    | some s0 =>
      rw [hs] at h
      rw [ih s0 h, clipStep_frame f values out_ptr i s s0 hs b hb]

theorem Memcpy_frame {T : Type} (elem_size dst src sz : Nat) (s s1 : Machine T)
    (h : Memcpy elem_size dst src sz s = some s1) (b : Nat) (hb : b ≠ dst) :
    s1.mem b = s.mem b := by
  unfold Memcpy at h
  split_ifs at h
  simp only [Option.some.injEq] at h
  rw [← h]
  exact Function.update_noteq hb _ _

theorem ByMinMax_frame {T : Type} (F : ClipFunctor T) (num_values : Int)
    (values min_value max_value out_ptr : Nat) (s s1 : Machine T)
    (h : ClipValuesUtil.ByMinMax F num_values values min_value max_value out_ptr s = some s1)
    (b : Nat) (hb : b ≠ out_ptr) : s1.mem b = s.mem b := by
  unfold ClipValuesUtil.ByMinMax at h
  cases h1 : (s.emit (Event.ByMinMax num_values values min_value max_value out_ptr)).load
      min_value 0 with
  | none => rw [h1] at h; cases h
  | some r1 =>
    obtain ⟨lo, s2⟩ := r1
    rw [h1] at h
    simp only at h
    cases h2 : s2.load max_value 0 with
    | none => rw [h2] at h; cases h
    | some r2 =>
      obtain ⟨hi, s3⟩ := r2
      rw [h2] at h
      rw [forIndices_clipStep_frame _ values out_ptr _ s3 s1 h b hb,
        load_mem s2 s3 max_value 0 hi h2, load_mem _ s2 min_value 0 lo h1]
      rfl

theorem ByMin_frame {T : Type} (F : ClipFunctor T) (num_values : Int)
    (values min_value out_ptr : Nat) (s s1 : Machine T)
    (h : ClipValuesUtil.ByMin F num_values values min_value out_ptr s = some s1)
    (b : Nat) (hb : b ≠ out_ptr) : s1.mem b = s.mem b := by
  unfold ClipValuesUtil.ByMin at h
  cases h1 : (s.emit (Event.ByMin num_values values min_value out_ptr)).load min_value 0 with
  | none => rw [h1] at h; cases h
  | some r1 =>
    obtain ⟨lo, s2⟩ := r1
    rw [h1] at h
    rw [forIndices_clipStep_frame _ values out_ptr _ s2 s1 h b hb,
      load_mem _ s2 min_value 0 lo h1]
    rfl

theorem ByMax_frame {T : Type} (F : ClipFunctor T) (num_values : Int)
    (values max_value out_ptr : Nat) (s s1 : Machine T)
    (h : ClipValuesUtil.ByMax F num_values values max_value out_ptr s = some s1)
    (b : Nat) (hb : b ≠ out_ptr) : s1.mem b = s.mem b := by
  unfold ClipValuesUtil.ByMax at h
  cases h1 : (s.emit (Event.ByMax num_values values max_value out_ptr)).load max_value 0 with
  | none => rw [h1] at h; cases h
  | some r1 =>
    obtain ⟨hi, s2⟩ := r1
    rw [h1] at h
    rw [forIndices_clipStep_frame _ values out_ptr _ s2 s1 h b hb,
      load_mem _ s2 max_value 0 hi h1]
    rfl

/-- Every run of `Compute` that returns leaves every buffer other than `out`
as it was. -/
theorem Compute_mem_of_ne {T : Type} (K : KernelInst T) (ctx : KernelContext) (s s1 : Machine T)
    (tin tout : Tensor) (omin omax : Option Tensor)
    (hctx : ctx.Binds tin omin omax tout) (hrun : Compute K ctx s = some s1)
    (b : Nat) (hb : b ≠ tout.dptr) : s1.mem b = s.mem b := by
  unfold Compute at hrun
  simp only [hctx.in_eq, hctx.out_eq, hctx.min_eq, hctx.max_eq] at hrun
  cases hc : (if tin.dptr ≠ tout.dptr then
      Memcpy (K.GetSizeOfDataType K.data_type) tout.dptr tin.dptr
        (tout.elem_cnt * K.GetSizeOfDataType tout.data_type) s
    else some s) with
  | none => rw [hc] at hrun; cases hrun
  | some s0 =>
    rw [hc] at hrun
    simp only [Option.some_bind] at hrun
    have h0 : s0.mem b = s.mem b := by
      by_cases hal : tin.dptr = tout.dptr
      · simp only [hal, ne_eq, not_true_eq_false, if_false, Option.some.injEq] at hc
        rw [← hc]
      · simp only [ne_eq, hal, not_false_eq_true, if_true] at hc
        exact Memcpy_frame _ _ _ _ s s0 hc b hb
    cases omin with
    | none =>
      cases omax with
      | none =>
        simp only [Option.some.injEq] at hrun
        rw [← hrun, ← h0]
        rfl
      | some tmax => rw [ByMax_frame _ _ _ _ _ s0 s1 hrun b hb, h0]
    | some tmin =>
      cases omax with
      | none => rw [ByMin_frame _ _ _ _ _ s0 s1 hrun b hb, h0]
      | some tmax => rw [ByMinMax_frame _ _ _ _ _ _ s0 s1 hrun b hb, h0]

/-! ## The entry point (C1, C5, C6, C10) -/

/-- C1: `Compute` end to end, with the comparator of the spec.  For every call
whose `in` and `out` have `n` elements in buffers of `n` elements (`out` the
same buffer as `in` or another one) and whose present bounds hold the scalars
`lo` and `hi`, the call returns and `out` holds `min(max(v, lo), hi)` for each
element `v` of the initial `in` when both bounds are present, `max(v, lo)` when
only `min` is, `min(v, hi)` when only `max` is (and `v` when neither is). -/
theorem Compute_clamps {T : Type} [LinearOrder T] (K : KernelInst T) (ctx : KernelContext)
    (s : Machine T) (tin tout : Tensor) (omin omax : Option Tensor) (n : Nat) (lo hi : T)
    (hK : K.functor = SpecClipFunctor T)
    (hctx : ctx.Binds tin omin omax tout) (ws : WellSized K s tin tout n)
    (hlo : HoldsBound s tin tout omin lo) (hhi : HoldsBound s tin tout omax hi) :
    (Compute K ctx s).map (fun s1 => s1.mem tout.dptr)
      = some ((s.mem tin.dptr).map (fun v =>
          match omin, omax with
          | some _, some _ => min (max v lo) hi
          | some _, none => max v lo
          | none, some _ => min v hi
          | none, none => v)) := by
  rw [Compute_eq K ctx s tin tout omin omax n lo hi hctx ws hlo hhi, hK]
  simp only [Option.map_some', Function.update_same]
  congr 2
  funext v
  cases omin <;> cases omax <;>
    simp [clampOf, SpecClipFunctor_Max_eq, SpecClipFunctor_Min_eq]

theorem mkContext_Binds (tin : Tensor) (omin omax : Option Tensor) (tout : Tensor) :
    (mkContext tin omin omax tout).Binds tin omin omax tout :=
  ⟨rfl, rfl, rfl, rfl⟩

/-- Witness of C1: `in = [-2, 0, 3, 7, 10]`, `lo = 0`, `hi = 5` gives
`[0, 0, 3, 5, 5]`, and `in = [1, 2, 3]`, `lo` absent, `hi = 2` gives `[1, 2, 2]`
(`out` a separate buffer in both). -/
theorem Compute_clamps_witness :
    (Compute sampleInst (mkContext ⟨1, 5, 5⟩ (some ⟨2, 1, 5⟩) (some ⟨3, 1, 5⟩) ⟨4, 5, 5⟩)
        sampleMachine).map (fun s1 => s1.mem 4) = some [0, 0, 3, 5, 5]
    ∧ (Compute sampleInst (mkContext ⟨5, 3, 5⟩ none (some ⟨6, 1, 5⟩) ⟨7, 3, 5⟩)
        sampleMachine).map (fun s1 => s1.mem 7) = some [1, 2, 2] :=
  ⟨Compute_clamps sampleInst (mkContext ⟨1, 5, 5⟩ (some ⟨2, 1, 5⟩) (some ⟨3, 1, 5⟩) ⟨4, 5, 5⟩)
    sampleMachine ⟨1, 5, 5⟩ ⟨4, 5, 5⟩ (some ⟨2, 1, 5⟩) (some ⟨3, 1, 5⟩) 5 0 5 rfl
    (mkContext_Binds _ _ _ _) ⟨rfl, rfl, rfl, rfl, rfl, by decide⟩
    (fun t ht => by cases ht; exact ⟨rfl, by decide⟩)
    (fun t ht => by cases ht; exact ⟨rfl, by decide⟩),
   Compute_clamps sampleInst (mkContext ⟨5, 3, 5⟩ none (some ⟨6, 1, 5⟩) ⟨7, 3, 5⟩)
    sampleMachine ⟨5, 3, 5⟩ ⟨7, 3, 5⟩ none (some ⟨6, 1, 5⟩) 3 0 2 rfl
    (mkContext_Binds _ _ _ _) ⟨rfl, rfl, rfl, rfl, rfl, by decide⟩
    (fun t ht => by cases ht)
    (fun t ht => by cases ht; exact ⟨rfl, by decide⟩)⟩

/-- C5: aliasing equivalence of `Compute`.  From the same store, for every
comparator and every bound configuration, the call whose `out` is the buffer of
`in` returns and leaves in that buffer exactly what the call whose `out` is
another buffer of the same length (one that is not a bound buffer) leaves in
`out`. -/
theorem Compute_alias_equiv {T : Type} (K : KernelInst T) (ctxA ctxB : KernelContext)
    (s : Machine T) (tin toutA toutB : Tensor) (omin omax : Option Tensor) (n : Nat) (lo hi : T)
    (hA : ctxA.Binds tin omin omax toutA) (hB : ctxB.Binds tin omin omax toutB)
    (halias : toutA.dptr = tin.dptr)
    (wsA : WellSized K s tin toutA n) (wsB : WellSized K s tin toutB n)
    (hlo : HoldsBound s tin toutB omin lo) (hhi : HoldsBound s tin toutB omax hi) :
    (Compute K ctxA s).isSome = true
      ∧ (Compute K ctxA s).map (fun s1 => s1.mem tin.dptr)
        = (Compute K ctxB s).map (fun s1 => s1.mem toutB.dptr) := by
  have hloA : HoldsBound s tin toutA omin lo := fun t ht => ⟨(hlo t ht).1, fun _ => halias.symm⟩
  have hhiA : HoldsBound s tin toutA omax hi := fun t ht => ⟨(hhi t ht).1, fun _ => halias.symm⟩
  rw [Compute_eq K ctxA s tin toutA omin omax n lo hi hA wsA hloA hhiA,
    Compute_eq K ctxB s tin toutB omin omax n lo hi hB wsB hlo hhi]
  simp only [Option.isSome_some, Option.map_some', Function.update_same, true_and]
  rw [← halias, Function.update_same]

/-- Witness of C5: in place, `in = [-5, 0, 5]`, `lo = -1`, `hi = 1` leaves
`[-1, 0, 1]` in the shared buffer, and so does the run into a separate buffer
in that buffer. -/
theorem Compute_alias_equiv_witness :
    (Compute sampleInst (mkContext ⟨8, 3, 5⟩ (some ⟨9, 1, 5⟩) (some ⟨10, 1, 5⟩) ⟨8, 3, 5⟩)
        sampleMachine).map (fun s1 => s1.mem 8) = some [-1, 0, 1]
    ∧ (Compute sampleInst (mkContext ⟨8, 3, 5⟩ (some ⟨9, 1, 5⟩) (some ⟨10, 1, 5⟩) ⟨11, 3, 5⟩)
        sampleMachine).map (fun s1 => s1.mem 11) = some [-1, 0, 1] :=
  ⟨by decide,
   (Compute_alias_equiv sampleInst
      (mkContext ⟨8, 3, 5⟩ (some ⟨9, 1, 5⟩) (some ⟨10, 1, 5⟩) ⟨8, 3, 5⟩)
      (mkContext ⟨8, 3, 5⟩ (some ⟨9, 1, 5⟩) (some ⟨10, 1, 5⟩) ⟨11, 3, 5⟩)
      sampleMachine ⟨8, 3, 5⟩ ⟨8, 3, 5⟩ ⟨11, 3, 5⟩ (some ⟨9, 1, 5⟩) (some ⟨10, 1, 5⟩) 3 (-1) 1
      (mkContext_Binds _ _ _ _) (mkContext_Binds _ _ _ _) rfl
      ⟨rfl, rfl, rfl, rfl, rfl, by decide⟩ ⟨rfl, rfl, rfl, rfl, rfl, by decide⟩
      (fun t ht => by cases ht; exact ⟨rfl, by decide⟩)
      (fun t ht => by cases ht; exact ⟨rfl, by decide⟩)).2.symm.trans (by decide)⟩

theorem scanTrace_countP_isWarning (values out_ptr : Nat) (idxs : List Nat) :
    (scanTrace values out_ptr idxs).countP Event.isWarning = 0 := by
  induction idxs with
  | nil => rfl
  | cons i rest ih =>
    simp only [scanTrace, List.countP_cons, ih, Event.isWarning]
    rfl

/-- C6: the no-bounds path of `Compute`.  On every well-formed call the call
returns.  When both bounds are absent, `out` holds exactly the content of `in`
afterwards, the store is untouched if `out` aliases `in`, the events of the call
are the copy (only if the buffers are distinct) followed by the warning: exactly
one warning and no clamp variant.  When a bound is present the call emits no
warning. -/
theorem Compute_no_bounds {T : Type} (K : KernelInst T) (ctx : KernelContext) (s : Machine T)
    (tin tout : Tensor) (omin omax : Option Tensor) (n : Nat) (lo hi : T)
    (hctx : ctx.Binds tin omin omax tout) (ws : WellSized K s tin tout n)
    (hlo : HoldsBound s tin tout omin lo) (hhi : HoldsBound s tin tout omax hi) :
    ∃ s1 evs, Compute K ctx s = some s1 ∧ s1.log = s.log ++ evs
      ∧ (omin = none ∧ omax = none →
          s1.mem tout.dptr = s.mem tin.dptr
          ∧ (tin.dptr = tout.dptr → s1.mem = s.mem)
          ∧ evs = (if tin.dptr ≠ tout.dptr then
                [Event.Memcpy tout.dptr tin.dptr
                  (tout.elem_cnt * K.GetSizeOfDataType tout.data_type)]
              else []) ++ [Event.Warning noBoundsWarning]
          ∧ evs.countP Event.isWarning = 1
          ∧ evs.countP Event.isClamp = 0)
      ∧ (¬ (omin = none ∧ omax = none) → evs.countP Event.isWarning = 0) := by
  refine ⟨_, copyTrace K tin tout ++ branchTrace tin tout omin omax,
    Compute_eq K ctx s tin tout omin omax n lo hi hctx ws hlo hhi, ?_, ?_, ?_⟩
  · simp only [List.append_assoc]
  · rintro ⟨rfl, rfl⟩
    refine ⟨?_, ?_, ?_, ?_, ?_⟩
    · simp [clampOf]
    · intro h
      simp only [clampOf, List.map_id']
      rw [h]
      exact Function.update_eq_self _ _
    · rfl
    · by_cases h : tin.dptr = tout.dptr <;>
        simp [copyTrace, branchTrace, h, Event.isWarning, List.countP_cons]
    · by_cases h : tin.dptr = tout.dptr <;>
        simp [copyTrace, branchTrace, h, Event.isClamp, List.countP_cons]
  · intro hpres
    have hcopy : (copyTrace K tin tout).countP Event.isWarning = 0 := by
      by_cases h : tin.dptr = tout.dptr <;> simp [copyTrace, h, Event.isWarning, List.countP_cons]
    rw [List.countP_append, hcopy]
    cases omin with
    | none =>
      cases omax with
      | none => exact absurd ⟨rfl, rfl⟩ hpres
      | some tmax =>
        simp only [branchTrace, List.countP_cons, scanTrace_countP_isWarning, Event.isWarning]
        rfl
    | some tmin =>
      cases omax with
      | none =>
        simp only [branchTrace, List.countP_cons, scanTrace_countP_isWarning, Event.isWarning]
        rfl
      | some tmax =>
        simp only [branchTrace, List.countP_cons, scanTrace_countP_isWarning, Event.isWarning]
        rfl

/-- Witness of C6: `in = [1, 2, 3]`, both bounds absent, `out` a separate
buffer: `out` holds `[1, 2, 3]` and the call copied once and warned once. -/
theorem Compute_no_bounds_witness :
    ∃ s1 evs, Compute sampleInst (mkContext ⟨5, 3, 5⟩ none none ⟨7, 3, 5⟩) sampleMachine = some s1
      ∧ s1.log = sampleMachine.log ++ evs
      ∧ ((none : Option Tensor) = none ∧ (none : Option Tensor) = none →
          s1.mem 7 = sampleMachine.mem 5
          ∧ ((5 : Nat) = 7 → s1.mem = sampleMachine.mem)
          ∧ evs = (if (5 : Nat) ≠ 7 then [Event.Memcpy 7 5 (3 * 4)] else [])
              ++ [Event.Warning noBoundsWarning]
          ∧ evs.countP Event.isWarning = 1
          ∧ evs.countP Event.isClamp = 0)
      ∧ (¬ ((none : Option Tensor) = none ∧ (none : Option Tensor) = none) →
          evs.countP Event.isWarning = 0) :=
  Compute_no_bounds sampleInst (mkContext ⟨5, 3, 5⟩ none none ⟨7, 3, 5⟩) sampleMachine
    ⟨5, 3, 5⟩ ⟨7, 3, 5⟩ none none 3 0 0 (mkContext_Binds _ _ _ _)
    ⟨rfl, rfl, rfl, rfl, rfl, by decide⟩
    (fun t ht => by cases ht) (fun t ht => by cases ht)

/-- C10: the frame of `Compute`.  Every call that returns leaves every buffer
other than `out` with the content it had before: `out` is the only buffer whose
content may differ.  So the `min` and `max` bound buffers (buffers other than
`out`) are unchanged, and `in` is unchanged when `in` and `out` are distinct
buffers.  Every well-formed call returns. -/
theorem Compute_frame {T : Type} (K : KernelInst T) (ctx : KernelContext) (s : Machine T)
    (tin tout : Tensor) (omin omax : Option Tensor)
    (hctx : ctx.Binds tin omin omax tout) :
    (∀ s1, Compute K ctx s = some s1 →
      (∀ b, b ≠ tout.dptr → s1.mem b = s.mem b)
      ∧ (∀ t, omin = some t → t.dptr ≠ tout.dptr → s1.mem t.dptr = s.mem t.dptr)
      ∧ (∀ t, omax = some t → t.dptr ≠ tout.dptr → s1.mem t.dptr = s.mem t.dptr)
      ∧ (tin.dptr ≠ tout.dptr → s1.mem tin.dptr = s.mem tin.dptr))
    ∧ (∀ (n : Nat) (lo hi : T), WellSized K s tin tout n → HoldsBound s tin tout omin lo →
        HoldsBound s tin tout omax hi → (Compute K ctx s).isSome = true) := by
  refine ⟨fun s1 hrun => ⟨?_, ?_, ?_, ?_⟩, ?_⟩
  · intro b hb
    exact Compute_mem_of_ne K ctx s s1 tin tout omin omax hctx hrun b hb
  · intro t _ hb
    exact Compute_mem_of_ne K ctx s s1 tin tout omin omax hctx hrun t.dptr hb
  · intro t _ hb
    exact Compute_mem_of_ne K ctx s s1 tin tout omin omax hctx hrun t.dptr hb
  · intro hb
    exact Compute_mem_of_ne K ctx s s1 tin tout omin omax hctx hrun tin.dptr hb
  · intro n lo hi ws hlo hhi
    rw [Compute_eq K ctx s tin tout omin omax n lo hi hctx ws hlo hhi]
    rfl

/-- Witness of C10: `in = [-2, 0, 3, 7, 10]` clamped to `[0, 5]` into a separate
buffer: the call returns and only buffer 4 may differ. -/
theorem Compute_frame_witness :
    (∀ s1, Compute sampleInst
        (mkContext ⟨1, 5, 5⟩ (some ⟨2, 1, 5⟩) (some ⟨3, 1, 5⟩) ⟨4, 5, 5⟩) sampleMachine = some s1 →
      (∀ b, b ≠ 4 → s1.mem b = sampleMachine.mem b)
      ∧ (∀ t : Tensor, some (⟨2, 1, 5⟩ : Tensor) = some t → t.dptr ≠ 4 →
          s1.mem t.dptr = sampleMachine.mem t.dptr)
      ∧ (∀ t : Tensor, some (⟨3, 1, 5⟩ : Tensor) = some t → t.dptr ≠ 4 →
          s1.mem t.dptr = sampleMachine.mem t.dptr)
      ∧ ((1 : Nat) ≠ 4 → s1.mem 1 = sampleMachine.mem 1))
    ∧ (Compute sampleInst
        (mkContext ⟨1, 5, 5⟩ (some ⟨2, 1, 5⟩) (some ⟨3, 1, 5⟩) ⟨4, 5, 5⟩) sampleMachine).isSome
        = true :=
  ⟨(Compute_frame sampleInst (mkContext ⟨1, 5, 5⟩ (some ⟨2, 1, 5⟩) (some ⟨3, 1, 5⟩) ⟨4, 5, 5⟩)
      sampleMachine ⟨1, 5, 5⟩ ⟨4, 5, 5⟩ (some ⟨2, 1, 5⟩) (some ⟨3, 1, 5⟩)
      (mkContext_Binds _ _ _ _)).1,
   (Compute_frame sampleInst (mkContext ⟨1, 5, 5⟩ (some ⟨2, 1, 5⟩) (some ⟨3, 1, 5⟩) ⟨4, 5, 5⟩)
      sampleMachine ⟨1, 5, 5⟩ ⟨4, 5, 5⟩ (some ⟨2, 1, 5⟩) (some ⟨3, 1, 5⟩)
      (mkContext_Binds _ _ _ _)).2 5 0 5 ⟨rfl, rfl, rfl, rfl, rfl, by decide⟩
      (fun t ht => by cases ht; exact ⟨rfl, by decide⟩)
      (fun t ht => by cases ht; exact ⟨rfl, by decide⟩)⟩

/-! ## Idempotence of the clamp (C8) -/

theorem clamp_idem {T : Type} [LinearOrder T] (lo hi v : T) :
    min (max (min (max v lo) hi) lo) hi = min (max v lo) hi := by
  rcases le_total (max v lo) hi with h | h
  · rw [min_eq_left h, max_eq_left (le_max_right v lo), min_eq_left h]
  · rw [min_eq_right h, min_eq_right (le_max_left hi lo)]

/-- C8: idempotence of `ClipValuesByMinMax` with the comparator of the spec.
For every buffer and every bounds (also `lo > hi`), the call returns, the same
call applied to its output returns, and the range it writes (into any buffer
`out2`) equals the range the first call wrote; applied in place to the output
of the first call, it leaves the whole store as the first call left it. -/
theorem ClipValuesByMinMax_idempotent {T : Type} [LinearOrder T] (num_values : Int)
    (values out_ptr out2 : Nat) (lo hi : T) (s : Machine T)
    (hv : num_values.toNat ≤ (s.mem values).length)
    (ho : num_values.toNat ≤ (s.mem out_ptr).length)
    (ho2 : num_values.toNat ≤ (s.mem out2).length) :
    ∃ s1 s2, ClipValuesByMinMax (SpecClipFunctor T) num_values values lo hi out_ptr s = some s1
      ∧ ClipValuesByMinMax (SpecClipFunctor T) num_values out_ptr lo hi out2 s1 = some s2
      ∧ (s2.mem out2).take num_values.toNat = (s1.mem out_ptr).take num_values.toNat
      ∧ (out2 = out_ptr → s2.mem = s1.mem) := by
  have hlenA : ((List.take num_values.toNat (s.mem values)).map (fun v =>
      (SpecClipFunctor T).Min ((SpecClipFunctor T).Max v lo) hi)).length = num_values.toNat := by
    simp only [List.length_map, List.length_take]; omega
  have hlen1 : num_values.toNat ≤ ((clipResult (fun v => (SpecClipFunctor T).Min
      ((SpecClipFunctor T).Max v lo) hi) values out_ptr num_values.toNat s).mem out_ptr).length := by
    simp only [clipResult, Function.update_same, List.length_append, hlenA]; omega
  have hlen2 : num_values.toNat ≤ ((clipResult (fun v => (SpecClipFunctor T).Min
      ((SpecClipFunctor T).Max v lo) hi) values out_ptr num_values.toNat s).mem out2).length := by
    by_cases h : out2 = out_ptr
    · rw [h]; exact hlen1
    · simp only [clipResult, Function.update_noteq h]; exact ho2
  have htake : ∀ (A B : List T), A.length = num_values.toNat →
      List.take num_values.toNat (A ++ B) = A := by
    intro A B h
    rw [← h]; exact List.take_left' rfl
  have hdrop : ∀ (A B : List T), A.length = num_values.toNat →
      List.drop num_values.toNat (A ++ B) = B := by
    intro A B h
    rw [← h]; exact List.drop_left' rfl
  have hf : ((fun v => (SpecClipFunctor T).Min ((SpecClipFunctor T).Max v lo) hi)
      ∘ fun v => (SpecClipFunctor T).Min ((SpecClipFunctor T).Max v lo) hi)
      = fun v => (SpecClipFunctor T).Min ((SpecClipFunctor T).Max v lo) hi := by
    funext v
    simp only [Function.comp, SpecClipFunctor_Max_eq, SpecClipFunctor_Min_eq]
    exact clamp_idem lo hi v
  refine ⟨_, _, ClipValuesByMinMax_eq (SpecClipFunctor T) num_values values out_ptr lo hi s hv ho,
    ClipValuesByMinMax_eq (SpecClipFunctor T) num_values out_ptr out2 lo hi _ hlen1 hlen2, ?_, ?_⟩
  · have h1 : (clipResult (fun v => (SpecClipFunctor T).Min ((SpecClipFunctor T).Max v lo) hi)
        values out_ptr num_values.toNat s).mem out_ptr
        = (List.take num_values.toNat (s.mem values)).map (fun v =>
            (SpecClipFunctor T).Min ((SpecClipFunctor T).Max v lo) hi)
          ++ List.drop num_values.toNat (s.mem out_ptr) := by
      simp only [clipResult, Function.update_same]
    have h2 : ∀ s0 : Machine T,
        (clipResult (fun v => (SpecClipFunctor T).Min ((SpecClipFunctor T).Max v lo) hi)
          out_ptr out2 num_values.toNat s0).mem out2
        = (List.take num_values.toNat (s0.mem out_ptr)).map (fun v =>
            (SpecClipFunctor T).Min ((SpecClipFunctor T).Max v lo) hi)
          ++ List.drop num_values.toNat (s0.mem out2) := by
      intro s0
      simp only [clipResult, Function.update_same]
    rw [h2, h1, htake _ _ hlenA, List.map_map, hf, htake _ _ hlenA]
  · intro h
    subst h
    simp only [clipResult, Function.update_same, Function.update_idem]
    rw [htake _ _ hlenA, hdrop _ _ hlenA, List.map_map, hf]

/-- Witness of C8: `[-2, 0, 3, 7, 10]` clamped to `[0, 5]` into a second buffer,
then that buffer clamped in place. -/
theorem ClipValuesByMinMax_idempotent_witness :
    ∃ s1 s2, ClipValuesByMinMax (SpecClipFunctor Int) 5 1 0 5 4 sampleMachine = some s1
      ∧ ClipValuesByMinMax (SpecClipFunctor Int) 5 4 0 5 4 s1 = some s2
      ∧ (s2.mem 4).take (5 : Int).toNat = (s1.mem 4).take (5 : Int).toNat
      ∧ ((4 : Nat) = 4 → s2.mem = s1.mem) :=
  ClipValuesByMinMax_idempotent 5 1 4 4 0 5 sampleMachine (by decide) (by decide) (by decide)

/-! ## The copy step and the buffers of the variants (C11, C16, C20) -/

theorem scanTrace_countP_isMemcpy (values out_ptr : Nat) (idxs : List Nat) :
    (scanTrace values out_ptr idxs).countP Event.isMemcpy = 0 := by
  induction idxs with
  | nil => rfl
  | cons i rest ih =>
    simp only [scanTrace, List.countP_cons, ih, Event.isMemcpy]
    rfl

theorem branchTrace_countP_isMemcpy (tin tout : Tensor) (omin omax : Option Tensor) :
    (branchTrace tin tout omin omax).countP Event.isMemcpy = 0 := by
  cases omin <;> cases omax <;>
    simp only [branchTrace, List.countP_cons, scanTrace_countP_isMemcpy, Event.isMemcpy] <;> rfl

/-- C11: the copy decision of `Compute`.  On every well-formed call the call
returns.  If `in` and `out` are distinct buffers, the first event of the call is
a copy from `in` to `out` of `n` times the element size bytes, `n` being the
element count the clamp processes, and it is the only copy of the call: every
event of a clamp variant comes after it.  If `in` and `out` are the same buffer,
the call copies nothing. -/
theorem Compute_copy_decision {T : Type} (K : KernelInst T) (ctx : KernelContext)
    (s : Machine T) (tin tout : Tensor) (omin omax : Option Tensor) (n : Nat) (lo hi : T)
    (hctx : ctx.Binds tin omin omax tout) (ws : WellSized K s tin tout n)
    (hlo : HoldsBound s tin tout omin lo) (hhi : HoldsBound s tin tout omax hi) :
    ∃ s1 evs, Compute K ctx s = some s1 ∧ s1.log = s.log ++ evs
      ∧ (tin.dptr ≠ tout.dptr →
          ∃ rest, evs = Event.Memcpy tout.dptr tin.dptr
                (tin.elem_cnt * K.GetSizeOfDataType K.data_type) :: rest
            ∧ rest.countP Event.isMemcpy = 0
            ∧ evs.countP Event.isMemcpy = 1)
      ∧ (tin.dptr = tout.dptr → evs.countP Event.isMemcpy = 0) := by
  refine ⟨_, copyTrace K tin tout ++ branchTrace tin tout omin omax,
    Compute_eq K ctx s tin tout omin omax n lo hi hctx ws hlo hhi, ?_, ?_, ?_⟩
  · simp only [List.append_assoc]
  · intro hne
    refine ⟨branchTrace tin tout omin omax, ?_, branchTrace_countP_isMemcpy _ _ _ _, ?_⟩
    · simp only [copyTrace, ne_eq, hne, not_false_eq_true, if_true, ws.out_type, ws.out_cnt,
        ws.in_cnt, List.singleton_append]
    · simp only [copyTrace, ne_eq, hne, not_false_eq_true, if_true, List.singleton_append,
        List.countP_cons, branchTrace_countP_isMemcpy, Event.isMemcpy]
  · intro heq
    simp only [copyTrace, ne_eq, heq, not_true_eq_false, if_false, List.nil_append,
      branchTrace_countP_isMemcpy]

/-- Witness of C11: `in = [-2, 0, 3, 7, 10]` clamped to `[0, 5]` into a separate
buffer: one copy of 20 bytes, first. -/
theorem Compute_copy_decision_witness :
    ∃ s1 evs, Compute sampleInst
        (mkContext ⟨1, 5, 5⟩ (some ⟨2, 1, 5⟩) (some ⟨3, 1, 5⟩) ⟨4, 5, 5⟩) sampleMachine = some s1
      ∧ s1.log = sampleMachine.log ++ evs
      ∧ ((1 : Nat) ≠ 4 →
          ∃ rest, evs = Event.Memcpy 4 1 (5 * 4) :: rest
            ∧ rest.countP Event.isMemcpy = 0
            ∧ evs.countP Event.isMemcpy = 1)
      ∧ ((1 : Nat) = 4 → evs.countP Event.isMemcpy = 0) :=
  Compute_copy_decision sampleInst
    (mkContext ⟨1, 5, 5⟩ (some ⟨2, 1, 5⟩) (some ⟨3, 1, 5⟩) ⟨4, 5, 5⟩)
    sampleMachine ⟨1, 5, 5⟩ ⟨4, 5, 5⟩ (some ⟨2, 1, 5⟩) (some ⟨3, 1, 5⟩) 5 0 5
    (mkContext_Binds _ _ _ _) ⟨rfl, rfl, rfl, rfl, rfl, by decide⟩
    (fun t ht => by cases ht; exact ⟨rfl, by decide⟩)
    (fun t ht => by cases ht; exact ⟨rfl, by decide⟩)

theorem clampBuffers_scanTrace (values out_ptr : Nat) (idxs : List Nat) (e : Event)
    (he : e ∈ scanTrace values out_ptr idxs) : e.clampBuffers = none := by
  induction idxs with
  | nil => simp [scanTrace] at he
  | cons i rest ih =>
    simp only [scanTrace, List.mem_cons] at he
    rcases he with h | h | h
    · rw [h]; rfl
    · rw [h]; rfl
    · exact ih h

theorem clampBuffers_copyTrace {T : Type} (K : KernelInst T) (tin tout : Tensor) (e : Event)
    (he : e ∈ copyTrace K tin tout) : e.clampBuffers = none := by
  unfold copyTrace at he
  split_ifs at he
  · simp only [List.mem_singleton] at he
    rw [he]; rfl
  · simp at he

/-- C16 (as amended): the buffers of the clamp variant in `Compute`.  On every
well-formed call with a bound present the call returns, a clamp variant is
invoked, and every variant invoked is given the `in` buffer to read its values
from and the `out` buffer to write its results to; the call ends with the scan
that reads each `in[i]` and writes each `out[i]`.  The two are a single buffer
exactly when `out` aliases `in`. -/
theorem Compute_variant_buffers {T : Type} (K : KernelInst T) (ctx : KernelContext)
    (s : Machine T) (tin tout : Tensor) (omin omax : Option Tensor) (n : Nat) (lo hi : T)
    (hctx : ctx.Binds tin omin omax tout) (ws : WellSized K s tin tout n)
    (hlo : HoldsBound s tin tout omin lo) (hhi : HoldsBound s tin tout omax hi)
    (hpres : omin ≠ none ∨ omax ≠ none) :
    ∃ s1 evs, Compute K ctx s = some s1 ∧ s1.log = s.log ++ evs
      ∧ (∃ e ∈ evs, e.clampBuffers = some (tin.dptr, tout.dptr))
      ∧ (∀ e ∈ evs, ∀ p, e.clampBuffers = some p →
          p = (tin.dptr, tout.dptr) ∧ (p.1 = p.2 ↔ tin.dptr = tout.dptr))
      ∧ (∃ pre, evs = pre ++ scanTrace tin.dptr tout.dptr (List.range n)) := by
  refine ⟨_, copyTrace K tin tout ++ branchTrace tin tout omin omax,
    Compute_eq K ctx s tin tout omin omax n lo hi hctx ws hlo hhi, ?_, ?_, ?_, ?_⟩
  · simp only [List.append_assoc]
  · cases omin with
    | none =>
      cases omax with
      | none => rcases hpres with h | h <;> exact absurd rfl h
      | some tmax =>
        exact ⟨Event.ByMax tin.elem_cnt tin.dptr tmax.dptr tout.dptr,
          List.mem_append_right _ (by simp [branchTrace]), rfl⟩
    | some tmin =>
      cases omax with
      | none =>
        exact ⟨Event.ByMin tin.elem_cnt tin.dptr tmin.dptr tout.dptr,
          List.mem_append_right _ (by simp [branchTrace]), rfl⟩
      | some tmax =>
        exact ⟨Event.ByMinMax tin.elem_cnt tin.dptr tmin.dptr tmax.dptr tout.dptr,
          List.mem_append_right _ (by simp [branchTrace]), rfl⟩
  · intro e he p hp
    have hp' : p = (tin.dptr, tout.dptr) := by
      rcases List.mem_append.mp he with h | h
      · rw [clampBuffers_copyTrace K tin tout e h] at hp
        cases hp
      · cases omin with
        | none =>
          cases omax with
          | none =>
            simp only [branchTrace, List.mem_singleton] at h
            rw [h] at hp
            cases hp
          | some tmax =>
            simp only [branchTrace, List.mem_cons] at h
            rcases h with h | h | h
            · rw [h] at hp
              exact (Option.some.inj hp).symm
            · rw [h] at hp
              cases hp
            · rw [clampBuffers_scanTrace _ _ _ e h] at hp
              cases hp
        | some tmin =>
          cases omax with
          | none =>
            simp only [branchTrace, List.mem_cons] at h
            rcases h with h | h | h
            · rw [h] at hp
              exact (Option.some.inj hp).symm
            · rw [h] at hp
              cases hp
            · rw [clampBuffers_scanTrace _ _ _ e h] at hp
              cases hp
          | some tmax =>
            simp only [branchTrace, List.mem_cons] at h
            rcases h with h | h | h | h
            · rw [h] at hp
              exact (Option.some.inj hp).symm
            · rw [h] at hp
              cases hp
            · rw [h] at hp
              cases hp
            · rw [clampBuffers_scanTrace _ _ _ e h] at hp
              cases hp
    refine ⟨hp', ?_⟩
    rw [hp']
  · cases omin with
    | none =>
      cases omax with
      | none => rcases hpres with h | h <;> exact absurd rfl h
      | some tmax =>
        exact ⟨copyTrace K tin tout ++ [Event.ByMax tin.elem_cnt tin.dptr tmax.dptr tout.dptr,
          Event.Load tmax.dptr 0], by simp [branchTrace, ws.in_cnt]⟩
    | some tmin =>
      cases omax with
      | none =>
        exact ⟨copyTrace K tin tout ++ [Event.ByMin tin.elem_cnt tin.dptr tmin.dptr tout.dptr,
          Event.Load tmin.dptr 0], by simp [branchTrace, ws.in_cnt]⟩
      | some tmax =>
        exact ⟨copyTrace K tin tout
          ++ [Event.ByMinMax tin.elem_cnt tin.dptr tmin.dptr tmax.dptr tout.dptr,
            Event.Load tmin.dptr 0, Event.Load tmax.dptr 0],
          by simp [branchTrace, ws.in_cnt]⟩

/-- Witness of C16: `in = [-5, 0, 5]` clamped to `[-1, 1]` in place. -/
theorem Compute_variant_buffers_witness :
    ∃ s1 evs, Compute sampleInst
        (mkContext ⟨8, 3, 5⟩ (some ⟨9, 1, 5⟩) (some ⟨10, 1, 5⟩) ⟨8, 3, 5⟩) sampleMachine = some s1
      ∧ s1.log = sampleMachine.log ++ evs
      ∧ (∃ e ∈ evs, e.clampBuffers = some (8, 8))
      ∧ (∀ e ∈ evs, ∀ p, e.clampBuffers = some p →
          p = (8, 8) ∧ (p.1 = p.2 ↔ (8 : Nat) = 8))
      ∧ (∃ pre, evs = pre ++ scanTrace 8 8 (List.range 3)) :=
  Compute_variant_buffers sampleInst
    (mkContext ⟨8, 3, 5⟩ (some ⟨9, 1, 5⟩) (some ⟨10, 1, 5⟩) ⟨8, 3, 5⟩)
    sampleMachine ⟨8, 3, 5⟩ ⟨8, 3, 5⟩ (some ⟨9, 1, 5⟩) (some ⟨10, 1, 5⟩) 3 (-1) 1
    (mkContext_Binds _ _ _ _) ⟨rfl, rfl, rfl, rfl, rfl, by decide⟩
    (fun t ht => by cases ht; exact ⟨rfl, by decide⟩)
    (fun t ht => by cases ht; exact ⟨rfl, by decide⟩)
    (Or.inl (by simp))

/-- Counterexample to C16 as stated: clamping `in = [-2, 0, 3, 7, 10]` to
`[0, 5]` into a separate buffer, the one variant invoked is given buffer 1 to
read from and buffer 4 to write to, and its scan reads `in[0]` from buffer 1
and writes `out[0]` to buffer 4. -/
theorem Compute_variant_buffers_counterexample :
    (Compute sampleInst (mkContext ⟨1, 5, 5⟩ (some ⟨2, 1, 5⟩) (some ⟨3, 1, 5⟩) ⟨4, 5, 5⟩)
        sampleMachine).map (fun s1 => (s1.log.filterMap Event.clampBuffers, s1.log.take 6))
      = some ([(1, 4)], [Event.Memcpy 4 1 20, Event.ByMinMax 5 1 2 3 4, Event.Load 2 0,
          Event.Load 3 0, Event.Load 1 0, Event.Store 4 0]) := by
  decide

/-- The scan of a call run on the initial store, without the copy step. -/
theorem clipResult_no_copy {T : Type} (K : KernelInst T) (s : Machine T) (tin tout : Tensor)
    (n : Nat) (ws : WellSized K s tin tout n) (f : T → T) (log : List Event) :
    clipResult f tin.dptr tout.dptr n { mem := s.mem, log := log }
      = { mem := Function.update s.mem tout.dptr ((s.mem tin.dptr).map f),
          log := log ++ scanTrace tin.dptr tout.dptr (List.range n) } := by
  have h1 : List.take n (s.mem tin.dptr) = s.mem tin.dptr :=
    List.take_of_length_le (by rw [ws.in_len])
  have h2 : List.drop n (s.mem tout.dptr) = [] :=
    List.drop_of_length_le (by rw [ws.out_len])
  simp only [clipResult, h1, h2, List.append_nil]

/-- Closed form of the branch on bound presence run without the copy step,
when a bound is present. -/
theorem ComputeSkipCopy_eq {T : Type} (K : KernelInst T) (ctx : KernelContext) (s : Machine T)
    (tin tout : Tensor) (omin omax : Option Tensor) (n : Nat) (lo hi : T)
    (hctx : ctx.Binds tin omin omax tout) (ws : WellSized K s tin tout n)
    (hlo : HoldsBound s tin tout omin lo) (hhi : HoldsBound s tin tout omax hi)
    (hpres : omin ≠ none ∨ omax ≠ none) :
    ComputeSkipCopy K ctx s
      = some { mem := Function.update s.mem tout.dptr
                 ((s.mem tin.dptr).map (clampOf K.functor omin omax lo hi)),
               log := s.log ++ branchTrace tin tout omin omax } := by
  have hn : (Int.toNat (tin.elem_cnt : Int)) = n := by rw [Int.toNat_ofNat, ws.in_cnt]
  have hlen : ∀ l : List Event, (Int.toNat (tin.elem_cnt : Int)) ≤
      ((⟨s.mem, l⟩ : Machine T).mem tin.dptr).length
      ∧ (Int.toNat (tin.elem_cnt : Int)) ≤
      ((⟨s.mem, l⟩ : Machine T).mem tout.dptr).length := by
    intro l
    simp only [hn, ws.in_len, ws.out_len, le_refl, and_self]
  unfold ComputeSkipCopy
  simp only [hctx.in_eq, hctx.out_eq, hctx.min_eq, hctx.max_eq]
  cases omin with
  | none =>
    cases omax with
    | none => rcases hpres with h | h <;> exact absurd rfl h
    | some tmax =>
      obtain ⟨hb, _⟩ := hhi tmax rfl
      simp only [ClipValuesUtil.ByMax, Machine.load, Machine.emit, hb]
      rw [ClipValuesByMax_eq _ _ _ _ _ _ (hlen _).1 (hlen _).2, hn,
        clipResult_no_copy K s tin tout n ws]
      simp [clampOf, branchTrace, ws.in_cnt]
  | some tmin =>
    obtain ⟨hbl, _⟩ := hlo tmin rfl
    cases omax with
    | none =>
      simp only [ClipValuesUtil.ByMin, Machine.load, Machine.emit, hbl]
      rw [ClipValuesByMin_eq _ _ _ _ _ _ (hlen _).1 (hlen _).2, hn,
        clipResult_no_copy K s tin tout n ws]
      simp [clampOf, branchTrace, ws.in_cnt]
    | some tmax =>
      obtain ⟨hb, _⟩ := hhi tmax rfl
      simp only [ClipValuesUtil.ByMinMax, Machine.load, Machine.emit, hbl, hb]
      rw [ClipValuesByMinMax_eq _ _ _ _ _ _ _ (hlen _).1 (hlen _).2, hn,
        clipResult_no_copy K s tin tout n ws]
      simp [clampOf, branchTrace, ws.in_cnt]

/-- C20: independence of `Compute` from the prior content of `out` and from
the copy step.  On every well-formed call with distinct `in` and `out` buffers
of `n` elements and a bound present, the call returns; started with any other
`n` elements `c` in `out` it leaves the same content in `out`; and the branch on
bound presence run without the copy step leaves that same content in `out`. -/
theorem Compute_out_independent {T : Type} (K : KernelInst T) (ctx : KernelContext)
    (s : Machine T) (tin tout : Tensor) (omin omax : Option Tensor) (n : Nat) (lo hi : T)
    (c : List T)
    (hctx : ctx.Binds tin omin omax tout) (ws : WellSized K s tin tout n)
    (hlo : HoldsBound s tin tout omin lo) (hhi : HoldsBound s tin tout omax hi)
    (hne : tin.dptr ≠ tout.dptr) (hc : c.length = n) (hpres : omin ≠ none ∨ omax ≠ none) :
    (Compute K ctx s).isSome = true
      ∧ (Compute K ctx { s with mem := Function.update s.mem tout.dptr c }).map
          (fun s1 => s1.mem tout.dptr)
        = (Compute K ctx s).map (fun s1 => s1.mem tout.dptr)
      ∧ (ComputeSkipCopy K ctx s).map (fun s1 => s1.mem tout.dptr)
        = (Compute K ctx s).map (fun s1 => s1.mem tout.dptr) := by
  have hin : Function.update s.mem tout.dptr c tin.dptr = s.mem tin.dptr :=
    Function.update_noteq hne _ _
  have hlin : (Function.update s.mem tout.dptr c tin.dptr).length = n := by
    rw [hin]; exact ws.in_len
  have hlout : (Function.update s.mem tout.dptr c tout.dptr).length = n := by
    rw [Function.update_same]; exact hc
  have ws2 : WellSized K { s with mem := Function.update s.mem tout.dptr c } tin tout n :=
    ⟨ws.in_cnt, ws.out_cnt, hlin, hlout, ws.out_type, ws.size_pos⟩
  have hb2 : ∀ (ot : Option Tensor) (b : T), HoldsBound s tin tout ot b →
      HoldsBound { s with mem := Function.update s.mem tout.dptr c } tin tout ot b := by
    intro ot b h t ht
    obtain ⟨h1, h2⟩ := h t ht
    have hnt : t.dptr ≠ tout.dptr := fun h3 => hne (h2 h3)
    have h0 : (Function.update s.mem tout.dptr c t.dptr)[0]? = some b := by
      rw [Function.update_noteq hnt]; exact h1
    exact ⟨h0, h2⟩
  rw [Compute_eq K ctx s tin tout omin omax n lo hi hctx ws hlo hhi,
    Compute_eq K ctx _ tin tout omin omax n lo hi hctx ws2 (hb2 _ _ hlo) (hb2 _ _ hhi),
    ComputeSkipCopy_eq K ctx s tin tout omin omax n lo hi hctx ws hlo hhi hpres]
  simp only [Option.isSome_some, Option.map_some', Function.update_same, hin, and_self]

/-- Witness of C20: `in = [-2, 0, 3, 7, 10]` clamped to `[0, 5]` into a separate
buffer that first holds `[9, 9, 9, 9, 9]` or `[1, 1, 1, 1, 1]`. -/
theorem Compute_out_independent_witness :
    (Compute sampleInst (mkContext ⟨1, 5, 5⟩ (some ⟨2, 1, 5⟩) (some ⟨3, 1, 5⟩) ⟨4, 5, 5⟩)
        sampleMachine).isSome = true
      ∧ (Compute sampleInst (mkContext ⟨1, 5, 5⟩ (some ⟨2, 1, 5⟩) (some ⟨3, 1, 5⟩) ⟨4, 5, 5⟩)
          { sampleMachine with mem := Function.update sampleMachine.mem 4 [1, 1, 1, 1, 1] }).map
          (fun s1 => s1.mem 4)
        = (Compute sampleInst (mkContext ⟨1, 5, 5⟩ (some ⟨2, 1, 5⟩) (some ⟨3, 1, 5⟩) ⟨4, 5, 5⟩)
          sampleMachine).map (fun s1 => s1.mem 4)
      ∧ (ComputeSkipCopy sampleInst
          (mkContext ⟨1, 5, 5⟩ (some ⟨2, 1, 5⟩) (some ⟨3, 1, 5⟩) ⟨4, 5, 5⟩) sampleMachine).map
          (fun s1 => s1.mem 4)
        = (Compute sampleInst (mkContext ⟨1, 5, 5⟩ (some ⟨2, 1, 5⟩) (some ⟨3, 1, 5⟩) ⟨4, 5, 5⟩)
          sampleMachine).map (fun s1 => s1.mem 4) :=
  Compute_out_independent sampleInst
    (mkContext ⟨1, 5, 5⟩ (some ⟨2, 1, 5⟩) (some ⟨3, 1, 5⟩) ⟨4, 5, 5⟩)
    sampleMachine ⟨1, 5, 5⟩ ⟨4, 5, 5⟩ (some ⟨2, 1, 5⟩) (some ⟨3, 1, 5⟩) 5 0 5 [1, 1, 1, 1, 1]
    (mkContext_Binds _ _ _ _) ⟨rfl, rfl, rfl, rfl, rfl, by decide⟩
    (fun t ht => by cases ht; exact ⟨rfl, by decide⟩)
    (fun t ht => by cases ht; exact ⟨rfl, by decide⟩)
    (by decide) rfl (Or.inl (by simp))

/-! ## Registration (C12, C13) -/

/-- C12: the match predicate of the registration.  For every registration
context that has an `out` descriptor and every instantiated pair, the predicate
returns, and returns true if and only if the device type of the context is the
device type of the instantiation and the data type of `out[0]` is its element
type; every context with the same device type and the same `out[0]` descriptor
gets the same answer, whatever it holds for `in`, `min` and `max`. -/
theorem IsMatchedPred_iff (device_type_v : DeviceType) (dtype : DataType)
    (ctx : KernelRegContext) (d : TensorDesc)
    (hout : ctx.TensorDesc4ArgNameAndIndex "out" 0 = some d) :
    IsMatchedPred device_type_v dtype ctx
        = some (decide (ctx.device_type = device_type_v ∧ d.data_type = dtype))
      ∧ (IsMatchedPred device_type_v dtype ctx = some true
          ↔ ctx.device_type = device_type_v ∧ d.data_type = dtype)
      ∧ ∀ ctx2 : KernelRegContext, ctx2.device_type = ctx.device_type →
          ctx2.TensorDesc4ArgNameAndIndex "out" 0 = some d →
          IsMatchedPred device_type_v dtype ctx2 = IsMatchedPred device_type_v dtype ctx := by
  have key : ∀ c : KernelRegContext, c.TensorDesc4ArgNameAndIndex "out" 0 = some d →
      IsMatchedPred device_type_v dtype c
        = some (decide (c.device_type = device_type_v ∧ d.data_type = dtype)) := by
    intro c hc
    unfold IsMatchedPred
    simp only [hc]
    by_cases h1 : c.device_type = device_type_v
    · by_cases h2 : d.data_type = dtype
      · simp [h1, h2]
      · simp [h1, h2]
    · simp [h1]
  refine ⟨key ctx hout, ?_, ?_⟩
  · rw [key ctx hout]
    simp
  · intro ctx2 hdev hout2
    rw [key ctx hout, key ctx2 hout2, hdev]

/-- Witness of C12: a context on device 1 whose `out` has data type 5 and whose
other operands have data type 2, against the instantiation (1, 5). -/
theorem IsMatchedPred_iff_witness :
    IsMatchedPred 1 5 ⟨1, fun name _ => if name = "out" then some ⟨5⟩ else some ⟨2⟩⟩ = some true
      ∧ IsMatchedPred 1 5 ⟨1, fun name _ => if name = "out" then some ⟨5⟩ else some ⟨7⟩⟩
          = some true :=
  ⟨(IsMatchedPred_iff 1 5 ⟨1, fun name _ => if name = "out" then some ⟨5⟩ else some ⟨2⟩⟩ ⟨5⟩
      rfl).1,
   ((IsMatchedPred_iff 1 5 ⟨1, fun name _ => if name = "out" then some ⟨5⟩ else some ⟨2⟩⟩ ⟨5⟩
      rfl).2.2 ⟨1, fun name _ => if name = "out" then some ⟨5⟩ else some ⟨7⟩⟩ rfl rfl).trans
    (by decide)⟩

/-- C13: the in-place proposal of the registration.  For every inference
context, callback and captured state, the proposal function is one call of the
callback with `("out", 0, "in", 0, true)`: it leaves the state that call leaves,
a callback that records its calls has recorded exactly that one, the function
returns Ok exactly when the call does, and returns the error of the call when
the call returns one. -/
theorem InplaceProposalFn_once {C σ ε : Type} (ctx : C) (add : AddInplaceArgPair σ ε) (st : σ) :
    InplaceProposalFn ctx add st = add "out" 0 "in" 0 true st
      ∧ (InplaceProposalFn ctx (recordCalls add) (st, [])).2
          = ((add "out" 0 "in" 0 true st).2, [⟨"out", 0, "in", 0, true⟩])
      ∧ ((InplaceProposalFn ctx add st).1 = Except.ok ()
          ↔ (add "out" 0 "in" 0 true st).1 = Except.ok ())
      ∧ ∀ e, (add "out" 0 "in" 0 true st).1 = Except.error e →
          (InplaceProposalFn ctx add st).1 = Except.error e := by
  have h : InplaceProposalFn ctx add st = add "out" 0 "in" 0 true st := by
    unfold InplaceProposalFn OF_RETURN_IF_ERROR
    rcases hr : add "out" 0 "in" 0 true st with ⟨r, st1⟩
    cases r with
    | error e => rfl
    | ok u => rfl
  refine ⟨h, ?_, ?_, ?_⟩
  · simp only [InplaceProposalFn, recordCalls, List.nil_append]
  · rw [h]
  · intro e he
    rw [h, he]

/-! ## Index coverage and order of the scan (C14, C15) -/

theorem scanTrace_filter_isStore (values out_ptr : Nat) (idxs : List Nat) :
    (scanTrace values out_ptr idxs).filter Event.isStore = idxs.map (Event.Store out_ptr) := by
  induction idxs with
  | nil => rfl
  | cons i rest ih =>
    simp only [scanTrace, List.map_cons]
    rw [List.filter_cons_of_neg (by simp [Event.isStore]),
      List.filter_cons_of_pos (by simp [Event.isStore]), ih]

theorem scanTrace_mem_store (values out_ptr : Nat) (idxs : List Nat) (p j : Nat)
    (h : Event.Store p j ∈ scanTrace values out_ptr idxs) : p = out_ptr ∧ j ∈ idxs := by
  have h1 : Event.Store p j ∈ (scanTrace values out_ptr idxs).filter Event.isStore :=
    List.mem_filter.mpr ⟨h, rfl⟩
  rw [scanTrace_filter_isStore, List.mem_map] at h1
  obtain ⟨i, hi, he⟩ := h1
  injection he with h2 h3
  exact ⟨h2.symm, h3 ▸ hi⟩

theorem scanTrace_count_store (values out_ptr : Nat) (idxs : List Nat) (hnd : idxs.Nodup)
    (i : Nat) (hi : i ∈ idxs) :
    (scanTrace values out_ptr idxs).count (Event.Store out_ptr i) = 1 := by
  have hinj : Function.Injective (Event.Store out_ptr) := by
    intro a b hab
    injection hab
  have h1 : (scanTrace values out_ptr idxs).count (Event.Store out_ptr i)
      = ((scanTrace values out_ptr idxs).filter Event.isStore).count (Event.Store out_ptr i) :=
    (List.count_filter rfl).symm
  rw [h1, scanTrace_filter_isStore]
  exact List.count_eq_one_of_mem (hnd.map hinj) (List.mem_map.mpr ⟨i, hi, rfl⟩)

/-- Coverage of one scan `XPU_1D_KERNEL_LOOP(i, n) out_ptr[i] = f(values[i])`. -/
theorem scan_coverage {T : Type} (f : T → T) (num_values : Int) (values out_ptr : Nat)
    (s : Machine T)
    (hv : num_values.toNat ≤ (s.mem values).length)
    (ho : num_values.toNat ≤ (s.mem out_ptr).length) :
    (num_values ≤ 0 → XPU_1D_KERNEL_LOOP num_values (clipStep f values out_ptr) s = some s)
    ∧ ∃ s1 evs, XPU_1D_KERNEL_LOOP num_values (clipStep f values out_ptr) s = some s1
      ∧ s1.log = s.log ++ evs
      ∧ evs.filter Event.isStore = (List.range num_values.toNat).map (Event.Store out_ptr)
      ∧ (∀ i : Nat, (i : Int) < num_values → evs.count (Event.Store out_ptr i) = 1)
      ∧ (∀ p j : Nat, Event.Store p j ∈ evs → p = out_ptr ∧ (j : Int) < num_values)
      ∧ (s1.mem out_ptr).length = (s.mem out_ptr).length
      ∧ (∀ j : Nat, num_values ≤ (j : Int) → (s1.mem out_ptr)[j]? = (s.mem out_ptr)[j]?) := by
  refine ⟨?_, clipResult f values out_ptr num_values.toNat s,
    scanTrace values out_ptr (List.range num_values.toNat),
    forIndices_clipStep_range f values out_ptr s num_values.toNat hv ho, rfl,
    scanTrace_filter_isStore _ _ _, ?_, ?_, ?_, ?_⟩
  · intro hn
    unfold XPU_1D_KERNEL_LOOP
    rw [Int.toNat_of_nonpos hn]
    rfl
  · intro i hi
    exact scanTrace_count_store values out_ptr _ (List.nodup_range _) i
      (List.mem_range.mpr (by omega))
  · intro p j h
    obtain ⟨h1, h2⟩ := scanTrace_mem_store values out_ptr _ p j h
    exact ⟨h1, by have := List.mem_range.mp h2; omega⟩
  · simp only [clipResult, Function.update_same, List.length_append, List.length_map,
      List.length_take, List.length_drop]
    omega
  · intro j hj
    have hlen : ((List.take num_values.toNat (s.mem values)).map f).length
        = num_values.toNat := by
      simp only [List.length_map, List.length_take]; omega
    simp only [clipResult, Function.update_same]
    rw [List.getElem?_append_right (by omega), hlen, List.getElem?_drop]
    congr 1
    omega

/-- C14: index coverage of the three variants.  For every element count and
buffers holding at least that many elements, each of `ClipValuesByMinMax`,
`ClipValuesByMin` and `ClipValuesByMax` returns; its writes are exactly
`out_ptr[0]`, ..., `out_ptr[n-1]`, each once and none outside `[0, n)` or
to another buffer; the output buffer keeps its length and its elements at
positions `≥ n`; and for `n ≤ 0` the call returns the machine unchanged. -/
theorem clamp_index_coverage {T : Type} (F : ClipFunctor T) (num_values : Int)
    (values out_ptr : Nat) (lo hi : T) (s : Machine T)
    (hv : num_values.toNat ≤ (s.mem values).length)
    (ho : num_values.toNat ≤ (s.mem out_ptr).length) :
    ∀ run ∈ [ClipValuesByMinMax F num_values values lo hi out_ptr s,
        ClipValuesByMin F num_values values lo out_ptr s,
        ClipValuesByMax F num_values values hi out_ptr s],
      (num_values ≤ 0 → run = some s)
      ∧ ∃ s1 evs, run = some s1
        ∧ s1.log = s.log ++ evs
        ∧ evs.filter Event.isStore = (List.range num_values.toNat).map (Event.Store out_ptr)
        ∧ (∀ i : Nat, (i : Int) < num_values → evs.count (Event.Store out_ptr i) = 1)
        ∧ (∀ p j : Nat, Event.Store p j ∈ evs → p = out_ptr ∧ (j : Int) < num_values)
        ∧ (s1.mem out_ptr).length = (s.mem out_ptr).length
        ∧ (∀ j : Nat, num_values ≤ (j : Int) → (s1.mem out_ptr)[j]? = (s.mem out_ptr)[j]?) := by
  intro run hrun
  simp only [List.mem_cons, List.mem_singleton, List.not_mem_nil, or_false] at hrun
  rcases hrun with h | h | h <;> rw [h]
  · exact scan_coverage _ num_values values out_ptr s hv ho
  · exact scan_coverage _ num_values values out_ptr s hv ho
  · exact scan_coverage _ num_values values out_ptr s hv ho

/-- Witness of C14: the both-bounds scan of the first 3 of the 5 elements of
`[-2, 0, 3, 7, 10]` into the 5-element buffer 4. -/
theorem clamp_index_coverage_witness :
    ((3 : Int) ≤ 0 →
        ClipValuesByMinMax (SpecClipFunctor Int) 3 1 0 5 4 sampleMachine = some sampleMachine)
      ∧ ∃ s1 evs, ClipValuesByMinMax (SpecClipFunctor Int) 3 1 0 5 4 sampleMachine = some s1
        ∧ s1.log = sampleMachine.log ++ evs
        ∧ evs.filter Event.isStore = (List.range (3 : Int).toNat).map (Event.Store 4)
        ∧ (∀ i : Nat, (i : Int) < 3 → evs.count (Event.Store 4 i) = 1)
        ∧ (∀ p j : Nat, Event.Store p j ∈ evs → p = 4 ∧ (j : Int) < 3)
        ∧ (s1.mem 4).length = (sampleMachine.mem 4).length
        ∧ (∀ j : Nat, (3 : Int) ≤ (j : Int) → (s1.mem 4)[j]? = (sampleMachine.mem 4)[j]?) :=
  clamp_index_coverage (SpecClipFunctor Int) 3 1 4 0 5 sampleMachine (by decide) (by decide)
    _ (List.mem_cons_self _ _)

theorem clipStep_eq {T : Type} (f : T → T) (values out_ptr i : Nat) (s : Machine T) (v : T)
    (hv : (s.mem values)[i]? = some v) (ho : i < (s.mem out_ptr).length) :
    clipStep f values out_ptr i s
      = some { mem := Function.update s.mem out_ptr ((s.mem out_ptr).set i (f v)),
               log := s.log ++ [Event.Load values i] ++ [Event.Store out_ptr i] } := by
  simp only [clipStep, Machine.load, hv, Machine.store, Machine.emit]
  rw [if_pos ho]

/-- The scan over any list of distinct in-bounds indices returns, touches only
`out_ptr`, keeps its length, and leaves `f(values[j])` at each listed index `j`
and the old content elsewhere. -/
theorem forIndices_clipStep_nodup {T : Type} (f : T → T) (values out_ptr : Nat)
    (idxs : List Nat) (s : Machine T) (hnd : idxs.Nodup)
    (hv : ∀ i ∈ idxs, i < (s.mem values).length)
    (ho : ∀ i ∈ idxs, i < (s.mem out_ptr).length) :
    ∃ s1, forIndices (clipStep f values out_ptr) idxs s = some s1
      ∧ (∀ b, b ≠ out_ptr → s1.mem b = s.mem b)
      ∧ (s1.mem out_ptr).length = (s.mem out_ptr).length
      ∧ ∀ j, (s1.mem out_ptr)[j]?
          = if j ∈ idxs then ((s.mem values)[j]?).map f else (s.mem out_ptr)[j]? := by
  induction idxs generalizing s with
  | nil =>
    exact ⟨s, rfl, fun _ _ => rfl, rfl, fun j => by simp⟩
  | cons i rest ih =>
    have hiv : i < (s.mem values).length := hv i (List.mem_cons_self _ _)
    have hio : i < (s.mem out_ptr).length := ho i (List.mem_cons_self _ _)
    have hget : (s.mem values)[i]? = some ((s.mem values)[i]) := List.getElem?_eq_getElem hiv
    obtain ⟨hni, hnd'⟩ := List.nodup_cons.mp hnd
    obtain ⟨s0, hstep, hmem0⟩ : ∃ s0, clipStep f values out_ptr i s = some s0
        ∧ s0.mem = Function.update s.mem out_ptr
            ((s.mem out_ptr).set i (f ((s.mem values)[i]))) :=
      ⟨_, clipStep_eq f values out_ptr i s _ hget hio, rfl⟩
    have hout0 : s0.mem out_ptr = (s.mem out_ptr).set i (f ((s.mem values)[i])) := by
      rw [hmem0, Function.update_same]
    have hother0 : ∀ b, b ≠ out_ptr → s0.mem b = s.mem b := by
      intro b hb
      rw [hmem0]; exact Function.update_noteq hb _ _
    have hlen0 : ∀ b, (s0.mem b).length = (s.mem b).length := by
      intro b
      by_cases hb : b = out_ptr
      · rw [hb, hout0, List.length_set]
      · rw [hother0 b hb]
    have hval0 : ∀ j, j ≠ i → (s0.mem values)[j]? = (s.mem values)[j]? := by
      intro j hj
      by_cases hb : values = out_ptr
      · rw [hb, hout0, List.getElem?_set_ne (Ne.symm hj)]
      · rw [hother0 values hb]
    obtain ⟨s1, hrun, hfr, hlen, hpt⟩ := ih s0 hnd'
      (fun j hj => by rw [hlen0]; exact hv j (List.mem_cons_of_mem _ hj))
      (fun j hj => by rw [hlen0]; exact ho j (List.mem_cons_of_mem _ hj))
    refine ⟨s1, ?_, ?_, ?_, ?_⟩
    · simp only [forIndices, hstep, Option.some_bind, hrun]
    · intro b hb
      rw [hfr b hb, hother0 b hb]
    · rw [hlen, hlen0]
    · intro j
      rw [hpt j]
      by_cases hjr : j ∈ rest
      · have hji : j ≠ i := fun h => hni (h ▸ hjr)
        rw [if_pos hjr, if_pos (List.mem_cons_of_mem _ hjr), hval0 j hji]
      · rw [if_neg hjr]
        by_cases hji : j = i
        · subst hji
          rw [if_pos (List.mem_cons_self _ _), hout0, List.getElem?_set_self hio, hget]
          rfl
        · have hnot : j ∉ i :: rest := by
            intro h
            rcases List.mem_cons.mp h with h | h
            · exact hji h
            · exact hjr h
          rw [if_neg hnot, hout0, List.getElem?_set_ne (Ne.symm hji)]

/-- The scan in any order of the indices `[0, n)` leaves the store the
left-to-right scan leaves. -/
theorem scan_order_independent {T : Type} (f : T → T) (num_values : Int) (values out_ptr : Nat)
    (s : Machine T) (idxs : List Nat)
    (hv : num_values.toNat ≤ (s.mem values).length)
    (ho : num_values.toNat ≤ (s.mem out_ptr).length)
    (hperm : idxs.Perm (List.range num_values.toNat)) :
    ∃ s1 s2, XPU_1D_KERNEL_LOOP num_values (clipStep f values out_ptr) s = some s1
      ∧ forIndices (clipStep f values out_ptr) idxs s = some s2
      ∧ s2.mem = s1.mem := by
  have hmem : ∀ j, j ∈ idxs ↔ j ∈ List.range num_values.toNat := fun j => hperm.mem_iff
  obtain ⟨s1, h1, hfr1, hlen1, hpt1⟩ := forIndices_clipStep_nodup f values out_ptr
    (List.range num_values.toNat) s (List.nodup_range _)
    (fun i hi => by have := List.mem_range.mp hi; omega)
    (fun i hi => by have := List.mem_range.mp hi; omega)
  obtain ⟨s2, h2, hfr2, hlen2, hpt2⟩ := forIndices_clipStep_nodup f values out_ptr idxs s
    (hperm.nodup_iff.mpr (List.nodup_range _))
    (fun i hi => by have := List.mem_range.mp ((hmem i).mp hi); omega)
    (fun i hi => by have := List.mem_range.mp ((hmem i).mp hi); omega)
  refine ⟨s1, s2, h1, h2, ?_⟩
  funext b
  by_cases hb : b = out_ptr
  · subst hb
    apply List.ext_getElem?
    intro j
    rw [hpt1 j, hpt2 j]
    by_cases hj : j ∈ idxs
    · rw [if_pos hj, if_pos ((hmem j).mp hj)]
    · rw [if_neg hj, if_neg (fun h => hj ((hmem j).mpr h))]
  · rw [hfr1 b hb, hfr2 b hb]

/-- C15: order independence of the three variants.  For every element count,
buffers holding at least that many elements (the same buffer or two), bounds,
and every permutation `idxs` of the indices `[0, n)`, each variant returns, the
per-index assignments `out_ptr[i] = clamp(values[i])` performed in the order
`idxs` return, and both leave the same store. -/
theorem clamp_order_independent {T : Type} (F : ClipFunctor T) (num_values : Int)
    (values out_ptr : Nat) (lo hi : T) (s : Machine T) (idxs : List Nat)
    (hv : num_values.toNat ≤ (s.mem values).length)
    (ho : num_values.toNat ≤ (s.mem out_ptr).length)
    (hperm : idxs.Perm (List.range num_values.toNat)) :
    ∀ p ∈ [((fun v => F.Min (F.Max v lo) hi),
          ClipValuesByMinMax F num_values values lo hi out_ptr s),
        ((fun v => F.Max v lo), ClipValuesByMin F num_values values lo out_ptr s),
        ((fun v => F.Min v hi), ClipValuesByMax F num_values values hi out_ptr s)],
      ∃ s1 s2, p.2 = some s1
        ∧ forIndices (clipStep p.1 values out_ptr) idxs s = some s2
        ∧ s2.mem = s1.mem := by
  intro p hp
  simp only [List.mem_cons, List.mem_singleton, List.not_mem_nil, or_false] at hp
  rcases hp with h | h | h <;> rw [h]
  · exact scan_order_independent _ num_values values out_ptr s idxs hv ho hperm
  · exact scan_order_independent _ num_values values out_ptr s idxs hv ho hperm
  · exact scan_order_independent _ num_values values out_ptr s idxs hv ho hperm

/-- Witness of C15: `[-5, 0, 5]` clamped in place to `[-1, 1]` in the order
2, 0, 1. -/
theorem clamp_order_independent_witness :
    ∃ s1 s2, ClipValuesByMinMax (SpecClipFunctor Int) 3 8 (-1) 1 8 sampleMachine = some s1
      ∧ forIndices (clipStep
          (fun v => (SpecClipFunctor Int).Min ((SpecClipFunctor Int).Max v (-1)) 1) 8 8)
          [2, 0, 1] sampleMachine = some s2
      ∧ s2.mem = s1.mem :=
  clamp_order_independent (SpecClipFunctor Int) 3 8 8 (-1) 1 sampleMachine [2, 0, 1]
    (by decide) (by decide) (by decide) _ (List.mem_cons_self _ _)

/-! ## Composition and fixed points of the clamp (C18, C19) -/

/-- C18: composition of the variants, for every comparator.  For every element
count, buffers `values`, `tmp` and `out_ptr` holding at least that many elements
(any of them the same buffer) and bounds, the lower-only variant from `values`
into `tmp` followed by the upper-only variant from `tmp` into `out_ptr` returns
and leaves in `out_ptr` what the both-bounds variant from `values` into
`out_ptr` leaves; when `tmp` is `out_ptr` (in particular with all three the
input buffer) the whole stores are equal. -/
theorem clamp_composition {T : Type} (F : ClipFunctor T) (num_values : Int)
    (values tmp out_ptr : Nat) (lo hi : T) (s : Machine T)
    (hv : num_values.toNat ≤ (s.mem values).length)
    (ht : num_values.toNat ≤ (s.mem tmp).length)
    (ho : num_values.toNat ≤ (s.mem out_ptr).length) :
    ∃ s1 s2 s3, ClipValuesByMin F num_values values lo tmp s = some s1
      ∧ ClipValuesByMax F num_values tmp hi out_ptr s1 = some s2
      ∧ ClipValuesByMinMax F num_values values lo hi out_ptr s = some s3
      ∧ s2.mem out_ptr = s3.mem out_ptr
      ∧ (tmp = out_ptr → s2.mem = s3.mem) := by
  have hlenA : ((List.take num_values.toNat (s.mem values)).map
      (fun v => F.Max v lo)).length = num_values.toNat := by
    simp only [List.length_map, List.length_take]; omega
  have htmp1 : (clipResult (fun v => F.Max v lo) values tmp num_values.toNat s).mem tmp
      = (List.take num_values.toNat (s.mem values)).map (fun v => F.Max v lo)
        ++ List.drop num_values.toNat (s.mem tmp) := by
    simp only [clipResult, Function.update_same]
  have hdrop1 : List.drop num_values.toNat
      ((clipResult (fun v => F.Max v lo) values tmp num_values.toNat s).mem out_ptr)
      = List.drop num_values.toNat (s.mem out_ptr) := by
    by_cases h : out_ptr = tmp
    · rw [h, htmp1, List.drop_left' hlenA]
    · simp only [clipResult, Function.update_noteq h]
  have hlen_tmp : num_values.toNat
      ≤ ((clipResult (fun v => F.Max v lo) values tmp num_values.toNat s).mem tmp).length := by
    rw [htmp1, List.length_append, hlenA]; omega
  have hlen_out : num_values.toNat
      ≤ ((clipResult (fun v => F.Max v lo) values tmp num_values.toNat s).mem out_ptr).length := by
    by_cases h : out_ptr = tmp
    · rw [h]; exact hlen_tmp
    · simp only [clipResult, Function.update_noteq h]; exact ho
  have h2 : ∀ s0 : Machine T,
      (clipResult (fun v => F.Min v hi) tmp out_ptr num_values.toNat s0).mem
      = Function.update s0.mem out_ptr
          ((List.take num_values.toNat (s0.mem tmp)).map (fun v => F.Min v hi)
            ++ List.drop num_values.toNat (s0.mem out_ptr)) := by
    intro s0
    simp only [clipResult]
  have hY : (List.take num_values.toNat
        ((clipResult (fun v => F.Max v lo) values tmp num_values.toNat s).mem tmp)).map
        (fun v => F.Min v hi)
      ++ List.drop num_values.toNat
        ((clipResult (fun v => F.Max v lo) values tmp num_values.toNat s).mem out_ptr)
      = (List.take num_values.toNat (s.mem values)).map (fun v => F.Min (F.Max v lo) hi)
        ++ List.drop num_values.toNat (s.mem out_ptr) := by
    rw [hdrop1, htmp1, List.take_left' hlenA, List.map_map]
    rfl
  refine ⟨_, _, _, ClipValuesByMin_eq F num_values values tmp lo s hv ht,
    ClipValuesByMax_eq F num_values tmp out_ptr hi _ hlen_tmp hlen_out,
    ClipValuesByMinMax_eq F num_values values out_ptr lo hi s hv ho, ?_, ?_⟩
  · rw [h2, hY]
    simp only [clipResult, Function.update_same]
  · intro h
    rw [h2, hY]
    subst h
    simp only [clipResult, Function.update_idem]

/-- Witness of C18: `[-5, 0, 5]` clamped in place to `[-1, 1]`, in two passes
and in one. -/
theorem clamp_composition_witness :
    ∃ s1 s2 s3, ClipValuesByMin (SpecClipFunctor Int) 3 8 (-1) 8 sampleMachine = some s1
      ∧ ClipValuesByMax (SpecClipFunctor Int) 3 8 1 8 s1 = some s2
      ∧ ClipValuesByMinMax (SpecClipFunctor Int) 3 8 (-1) 1 8 sampleMachine = some s3
      ∧ s2.mem 8 = s3.mem 8
      ∧ ((8 : Nat) = 8 → s2.mem = s3.mem) :=
  clamp_composition (SpecClipFunctor Int) 3 8 8 8 (-1) 1 sampleMachine
    (by decide) (by decide) (by decide)

/-- A scan with a function that fixes every element of the input range leaves
the input range in the output, and leaves the store unchanged when run in
place. -/
theorem clipResult_fixed {T : Type} (f : T → T) (values out_ptr n : Nat) (s : Machine T)
    (hv : n ≤ (s.mem values).length)
    (hfix : ∀ v ∈ (s.mem values).take n, f v = v) :
    ((clipResult f values out_ptr n s).mem out_ptr).take n = (s.mem values).take n
      ∧ (values = out_ptr → (clipResult f values out_ptr n s).mem = s.mem) := by
  have hmap : ((s.mem values).take n).map f = (s.mem values).take n := by
    rw [List.map_congr_left hfix, List.map_id']
  have hlen : ((s.mem values).take n).length = n := by
    rw [List.length_take]; omega
  constructor
  · simp only [clipResult, Function.update_same, hmap]
    exact List.take_left' hlen
  · intro h
    subst h
    simp only [clipResult, hmap, List.take_append_drop]
    exact Function.update_eq_self _ _

/-- C19: in-range values are fixed points, with the comparator of the spec.
The three variants return.  The both-bounds variant returns unchanged every
element of the range with `lo ≤ input[i] ≤ hi`, the lower-only variant every
element with `input[i] ≥ lo`, the upper-only variant every element with
`input[i] ≤ hi`.  Hence when every element of the input range is in `[lo, hi]`,
each variant leaves the input range as its output range, and run in place it
leaves the whole store unchanged. -/
theorem clamp_fixed_points {T : Type} [LinearOrder T] (num_values : Int)
    (values out_ptr : Nat) (lo hi : T) (s : Machine T)
    (hv : num_values.toNat ≤ (s.mem values).length)
    (ho : num_values.toNat ≤ (s.mem out_ptr).length) :
    (∃ s1, ClipValuesByMinMax (SpecClipFunctor T) num_values values lo hi out_ptr s = some s1
      ∧ (∀ (i : Nat) (v : T), (i : Int) < num_values → (s.mem values)[i]? = some v →
          lo ≤ v → v ≤ hi → (s1.mem out_ptr)[i]? = some v)
      ∧ ((∀ v ∈ (s.mem values).take num_values.toNat, lo ≤ v ∧ v ≤ hi) →
          (s1.mem out_ptr).take num_values.toNat = (s.mem values).take num_values.toNat
          ∧ (values = out_ptr → s1.mem = s.mem)))
    ∧ (∃ s1, ClipValuesByMin (SpecClipFunctor T) num_values values lo out_ptr s = some s1
      ∧ (∀ (i : Nat) (v : T), (i : Int) < num_values → (s.mem values)[i]? = some v →
          v ≥ lo → (s1.mem out_ptr)[i]? = some v)
      ∧ ((∀ v ∈ (s.mem values).take num_values.toNat, lo ≤ v ∧ v ≤ hi) →
          (s1.mem out_ptr).take num_values.toNat = (s.mem values).take num_values.toNat
          ∧ (values = out_ptr → s1.mem = s.mem)))
    ∧ (∃ s1, ClipValuesByMax (SpecClipFunctor T) num_values values hi out_ptr s = some s1
      ∧ (∀ (i : Nat) (v : T), (i : Int) < num_values → (s.mem values)[i]? = some v →
          v ≤ hi → (s1.mem out_ptr)[i]? = some v)
      ∧ ((∀ v ∈ (s.mem values).take num_values.toNat, lo ≤ v ∧ v ≤ hi) →
          (s1.mem out_ptr).take num_values.toNat = (s.mem values).take num_values.toNat
          ∧ (values = out_ptr → s1.mem = s.mem))) := by
  refine ⟨⟨_, ClipValuesByMinMax_eq (SpecClipFunctor T) num_values values out_ptr lo hi s hv ho,
      ?_, ?_⟩,
    ⟨_, ClipValuesByMin_eq (SpecClipFunctor T) num_values values out_ptr lo s hv ho, ?_, ?_⟩,
    ⟨_, ClipValuesByMax_eq (SpecClipFunctor T) num_values values out_ptr hi s hv ho, ?_, ?_⟩⟩
  · intro i v hi' hget hlo hhi
    rw [clipResult_getElem? _ values out_ptr num_values.toNat s i v (by omega) hget,
      SpecClipFunctor_Max_eq, SpecClipFunctor_Min_eq, max_eq_left hlo, min_eq_left hhi]
  · intro hall
    apply clipResult_fixed _ values out_ptr num_values.toNat s hv
    intro v hmem
    rw [SpecClipFunctor_Max_eq, SpecClipFunctor_Min_eq, max_eq_left (hall v hmem).1,
      min_eq_left (hall v hmem).2]
  · intro i v hi' hget hlo
    rw [clipResult_getElem? _ values out_ptr num_values.toNat s i v (by omega) hget,
      SpecClipFunctor_Max_eq, max_eq_left hlo]
  · intro hall
    apply clipResult_fixed _ values out_ptr num_values.toNat s hv
    intro v hmem
    rw [SpecClipFunctor_Max_eq, max_eq_left (hall v hmem).1]
  · intro i v hi' hget hhi
    rw [clipResult_getElem? _ values out_ptr num_values.toNat s i v (by omega) hget,
      SpecClipFunctor_Min_eq, min_eq_left hhi]
  · intro hall
    apply clipResult_fixed _ values out_ptr num_values.toNat s hv
    intro v hmem
    rw [SpecClipFunctor_Min_eq, min_eq_left (hall v hmem).2]

/-- Witness of C19: `[1, 2, 3]` against the bounds 0 and 5, in place: the store
is unchanged by the both-bounds variant. -/
theorem clamp_fixed_points_witness :
    (ClipValuesByMinMax (SpecClipFunctor Int) 3 5 0 5 5 sampleMachine).map
        (fun s1 => s1.mem 5) = some [1, 2, 3]
    ∧ ∃ s1, ClipValuesByMinMax (SpecClipFunctor Int) 3 5 0 5 5 sampleMachine = some s1
      ∧ s1.mem = sampleMachine.mem := by
  obtain ⟨⟨s1, hrun, _, hall⟩, _, _⟩ :=
    clamp_fixed_points 3 5 5 0 5 sampleMachine (by decide) (by decide)
  exact ⟨by decide, s1, hrun, (hall (by decide)).2 rfl⟩

/-! ## The comparator on values that may be NaN -/

theorem valLt_iff {T K : Type} [LinearOrder K] (val : T → Option K) (a b : T) :
    valLt val a b = true ↔ ∃ x y, val a = some x ∧ val b = some y ∧ x < y := by
  unfold valLt
  cases ha : val a with
  | none => simp
  | some x =>
    cases hb : val b with
    | none => simp
    | some y => simp

theorem valLe_iff {T K : Type} [LinearOrder K] (val : T → Option K) (a b : T) :
    valLe val a b = true ↔ ∃ x y, val a = some x ∧ val b = some y ∧ x ≤ y := by
  unfold valLe
  cases ha : val a with
  | none => simp
  | some x =>
    cases hb : val b with
    | none => simp
    | some y => simp

theorem NumericClipFunctor_Max_val {T K : Type} [LinearOrder K] (val : T → Option K)
    (v lo : T) (x l : K) (hv : val v = some x) (hl : val lo = some l) :
    (NumericClipFunctor val).Max v lo = if x < l then lo else v := by
  show (if valLt val v lo = true then lo else v) = _
  simp only [valLt, hv, hl, decide_eq_true_eq]

theorem NumericClipFunctor_Min_val {T K : Type} [LinearOrder K] (val : T → Option K)
    (w hi : T) (y h : K) (hw : val w = some y) (hh : val hi = some h) :
    (NumericClipFunctor val).Min w hi = if h < y then hi else w := by
  show (if valLt val hi w = true then hi else w) = _
  simp only [valLt, hw, hh, decide_eq_true_eq]

theorem NumericClipFunctor_Max_nan {T K : Type} [LinearOrder K] (val : T → Option K)
    (v lo : T) (hv : val v = none) : (NumericClipFunctor val).Max v lo = v := by
  show (if valLt val v lo = true then lo else v) = _
  simp [valLt, hv]

theorem NumericClipFunctor_Min_nan {T K : Type} [LinearOrder K] (val : T → Option K)
    (v hi : T) (hv : val v = none) : (NumericClipFunctor val).Min v hi = v := by
  show (if valLt val hi v = true then hi else v) = _
  cases hh : val hi <;> simp [valLt, hv, hh]

/-- With `lo > hi` and a value that is not a NaN, lower clamp then upper clamp
gives `hi`, upper clamp then lower clamp gives `lo`, and the two differ. -/
theorem numeric_degenerate {T K : Type} [LinearOrder K] (val : T → Option K)
    (v lo hi : T) (x : K) (hdeg : valLt val hi lo = true) (hv : val v = some x) :
    (NumericClipFunctor val).Min ((NumericClipFunctor val).Max v lo) hi = hi
      ∧ (NumericClipFunctor val).Max ((NumericClipFunctor val).Min v hi) lo = lo
      ∧ hi ≠ lo := by
  obtain ⟨h, l, hh, hl, hlt⟩ := (valLt_iff val hi lo).mp hdeg
  refine ⟨?_, ?_, ?_⟩
  · rw [NumericClipFunctor_Max_val val v lo x l hv hl]
    by_cases hxl : x < l
    · rw [if_pos hxl, NumericClipFunctor_Min_val val lo hi l h hl hh, if_pos hlt]
    · rw [if_neg hxl, NumericClipFunctor_Min_val val v hi x h hv hh,
        if_pos (lt_of_lt_of_le hlt (not_lt.mp hxl))]
  · rw [NumericClipFunctor_Min_val val v hi x h hv hh]
    by_cases hhx : h < x
    · rw [if_pos hhx, NumericClipFunctor_Max_val val hi lo h l hh hl, if_pos hlt]
    · rw [if_neg hhx, NumericClipFunctor_Max_val val v lo x l hv hl,
        if_pos (lt_of_le_of_lt (not_lt.mp hhx) hlt)]
  · intro heq
    rw [heq, hl] at hh
    have : l = h := Option.some.inj hh
    rw [this] at hlt
    exact lt_irrefl h hlt

/-- A NaN value is returned by both orders of the two clamps. -/
theorem numeric_nan {T K : Type} [LinearOrder K] (val : T → Option K)
    (v lo hi : T) (hv : val v = none) :
    (NumericClipFunctor val).Min ((NumericClipFunctor val).Max v lo) hi = v
      ∧ (NumericClipFunctor val).Max ((NumericClipFunctor val).Min v hi) lo = v := by
  rw [NumericClipFunctor_Max_nan val v lo hv, NumericClipFunctor_Min_nan val v hi hv,
    NumericClipFunctor_Max_nan val v lo hv]
  exact ⟨rfl, rfl⟩

/-- With `lo <= hi` and a value that is not a NaN, the both-bounds result lies
in `[lo, hi]` and is the nearer bound for a value outside. -/
theorem numeric_range {T K : Type} [LinearOrder K] (val : T → Option K)
    (v lo hi : T) (x : K) (hle : valLe val lo hi = true) (hv : val v = some x) :
    valLe val lo ((NumericClipFunctor val).Min ((NumericClipFunctor val).Max v lo) hi) = true
      ∧ valLe val ((NumericClipFunctor val).Min ((NumericClipFunctor val).Max v lo) hi) hi = true
      ∧ (valLt val v lo = true →
          (NumericClipFunctor val).Min ((NumericClipFunctor val).Max v lo) hi = lo)
      ∧ (valLt val hi v = true →
          (NumericClipFunctor val).Min ((NumericClipFunctor val).Max v lo) hi = hi) := by
  obtain ⟨l, h, hl, hh, hlh⟩ := (valLe_iff val lo hi).mp hle
  rw [NumericClipFunctor_Max_val val v lo x l hv hl]
  by_cases hxl : x < l
  · rw [if_pos hxl, NumericClipFunctor_Min_val val lo hi l h hl hh, if_neg (not_lt.mpr hlh)]
    refine ⟨(valLe_iff val lo lo).mpr ⟨l, l, hl, hl, le_refl l⟩, hle, fun _ => rfl, ?_⟩
    intro hgt
    obtain ⟨h', x', hh', hv', hlt⟩ := (valLt_iff val hi v).mp hgt
    rw [hh] at hh'; rw [hv] at hv'
    rw [← Option.some.inj hh', ← Option.some.inj hv'] at hlt
    exact absurd (lt_of_lt_of_le hxl hlh) (not_lt.mpr (le_of_lt hlt))
  · rw [if_neg hxl, NumericClipFunctor_Min_val val v hi x h hv hh]
    by_cases hhx : h < x
    · rw [if_pos hhx]
      refine ⟨hle, (valLe_iff val hi hi).mpr ⟨h, h, hh, hh, le_refl h⟩, ?_, fun _ => rfl⟩
      intro hlt
      obtain ⟨x', l', hv', hl', hlt'⟩ := (valLt_iff val v lo).mp hlt
      rw [hv] at hv'; rw [hl] at hl'
      rw [← Option.some.inj hv', ← Option.some.inj hl'] at hlt'
      exact absurd hlt' hxl
    · rw [if_neg hhx]
      refine ⟨(valLe_iff val lo v).mpr ⟨l, x, hl, hv, not_lt.mp hxl⟩,
        (valLe_iff val v hi).mpr ⟨x, h, hv, hh, not_lt.mp hhx⟩, ?_, ?_⟩
      · intro hlt
        obtain ⟨x', l', hv', hl', hlt'⟩ := (valLt_iff val v lo).mp hlt
        rw [hv] at hv'; rw [hl] at hl'
        rw [← Option.some.inj hv', ← Option.some.inj hl'] at hlt'
        exact absurd hlt' hxl
      · intro hgt
        obtain ⟨h', x', hh', hv', hlt⟩ := (valLt_iff val hi v).mp hgt
        rw [hh] at hh'; rw [hv] at hv'
        rw [← Option.some.inj hh', ← Option.some.inj hv'] at hlt
        exact absurd hlt hhx

/-- With a bound and a value that are not NaN, the lower clamp is `>=` the
bound and the upper clamp is `<=` the bound. -/
theorem numeric_one_bound {T K : Type} [LinearOrder K] (val : T → Option K)
    (v b : T) (x y : K) (hv : val v = some x) (hb : val b = some y) :
    valLe val b ((NumericClipFunctor val).Max v b) = true
      ∧ valLe val ((NumericClipFunctor val).Min v b) b = true := by
  rw [NumericClipFunctor_Max_val val v b x y hv hb, NumericClipFunctor_Min_val val v b x y hv hb]
  constructor
  · by_cases h : x < y
    · rw [if_pos h]; exact (valLe_iff val b b).mpr ⟨y, y, hb, hb, le_refl y⟩
    · rw [if_neg h]; exact (valLe_iff val b v).mpr ⟨y, x, hb, hv, not_lt.mp h⟩
  · by_cases h : y < x
    · rw [if_pos h]; exact (valLe_iff val b b).mpr ⟨y, y, hb, hb, le_refl y⟩
    · rw [if_neg h]; exact (valLe_iff val v b).mpr ⟨x, y, hv, hb, not_lt.mp h⟩

/-- With `lo <= hi` the two orders of the clamps agree on every value, NaN
included. -/
theorem numeric_comm {T K : Type} [LinearOrder K] (val : T → Option K)
    (v lo hi : T) (hle : valLe val lo hi = true) :
    (NumericClipFunctor val).Min ((NumericClipFunctor val).Max v lo) hi
      = (NumericClipFunctor val).Max ((NumericClipFunctor val).Min v hi) lo := by
  obtain ⟨l, h, hl, hh, hlh⟩ := (valLe_iff val lo hi).mp hle
  cases hv : val v with
  | none =>
    rw [(numeric_nan val v lo hi hv).1, (numeric_nan val v lo hi hv).2]
  | some x =>
    rw [NumericClipFunctor_Max_val val v lo x l hv hl,
      NumericClipFunctor_Min_val val v hi x h hv hh]
    by_cases hxl : x < l
    · rw [if_pos hxl, NumericClipFunctor_Min_val val lo hi l h hl hh, if_neg (not_lt.mpr hlh),
        if_neg (not_lt.mpr (le_trans (le_of_lt hxl) hlh)),
        NumericClipFunctor_Max_val val v lo x l hv hl, if_pos hxl]
    · rw [if_neg hxl, NumericClipFunctor_Min_val val v hi x h hv hh]
      by_cases hhx : h < x
      · rw [if_pos hhx, NumericClipFunctor_Max_val val hi lo h l hh hl,
          if_neg (not_lt.mpr hlh)]
      · rw [if_neg hhx, NumericClipFunctor_Max_val val v lo x l hv hl, if_neg hxl]

/-- On a totally ordered element type the comparator on values is the
comparator of the spec. -/
theorem NumericClipFunctor_some {T : Type} [LinearOrder T] :
    NumericClipFunctor (fun x : T => some x) = SpecClipFunctor T := by
  have hlt : ∀ a b : T, valLt (fun x : T => some x) a b = decide (a < b) := fun a b => rfl
  unfold NumericClipFunctor SpecClipFunctor
  congr 1
  · funext value max_value
    simp only [hlt, decide_eq_true_eq, gt_iff_lt]
  · funext value min_value
    simp only [hlt, decide_eq_true_eq]


/-! ## Clamp properties on element types with NaN (C7, C9, C17) -/

/-- C7 (as amended): degenerate range in `ClipValuesByMinMax`, with the
comparator of the spec on values that may be NaN.  For bounds with `lo > hi`
the call returns; every output element of the range whose input is not a NaN is
`hi` (and so is not `lo`), and an input that is a NaN is returned as it is. -/
theorem ClipValuesByMinMax_degenerate {T K : Type} [LinearOrder K] (val : T → Option K)
    (num_values : Int) (values out_ptr : Nat) (lo hi : T) (s : Machine T)
    (hv : num_values.toNat ≤ (s.mem values).length)
    (ho : num_values.toNat ≤ (s.mem out_ptr).length) (hdeg : valLt val hi lo = true) :
    ∃ s1, ClipValuesByMinMax (NumericClipFunctor val) num_values values lo hi out_ptr s
        = some s1 ∧
      ∀ (i : Nat) (v : T), (i : Int) < num_values → (s.mem values)[i]? = some v →
        (val v ≠ none → (s1.mem out_ptr)[i]? = some hi ∧ (s1.mem out_ptr)[i]? ≠ some lo)
        ∧ (val v = none → (s1.mem out_ptr)[i]? = some v) := by
  refine ⟨_, ClipValuesByMinMax_eq (NumericClipFunctor val) num_values values out_ptr lo hi s
    hv ho, ?_⟩
  intro i v hi' hget
  have hout : ((clipResult (fun v => (NumericClipFunctor val).Min
      ((NumericClipFunctor val).Max v lo) hi) values out_ptr num_values.toNat s).mem out_ptr)[i]?
      = some ((NumericClipFunctor val).Min ((NumericClipFunctor val).Max v lo) hi) :=
    clipResult_getElem? _ values out_ptr num_values.toNat s i v (by omega) hget
  constructor
  · intro hnn
    obtain ⟨x, hx⟩ := Option.ne_none_iff_exists'.mp hnn
    obtain ⟨h1, _, h3⟩ := numeric_degenerate val v lo hi x hdeg hx
    rw [hout, h1]
    exact ⟨rfl, fun h => h3 (Option.some.inj h)⟩
  · intro hnan
    rw [hout, (numeric_nan val v lo hi hnan).1]

/-- Witness of C7: `[NaN, 0, 3, 7, 10]` with `lo = 5 > hi = 0`. -/
theorem ClipValuesByMinMax_degenerate_witness :
    ∃ s1, ClipValuesByMinMax (NumericClipFunctor id) 5 1 (some 5) (some 0) 4 nanMachine
        = some s1 ∧
      ∀ (i : Nat) (v : Option Int), (i : Int) < 5 → (nanMachine.mem 1)[i]? = some v →
        (id v ≠ none → (s1.mem 4)[i]? = some (some 0) ∧ (s1.mem 4)[i]? ≠ some (some 5))
        ∧ (id v = none → (s1.mem 4)[i]? = some v) :=
  ClipValuesByMinMax_degenerate id 5 1 4 (some 5) (some 0) nanMachine
    (by decide) (by decide) (by decide)

/-- Counterexample to C7 as stated: with `lo = 5 > hi = 0`, the NaN element of
`[NaN, 0, 3, 7, 10]` is returned as NaN, not as `hi`. -/
theorem ClipValuesByMinMax_degenerate_counterexample :
    valLt id (some (0 : Int)) (some 5) = true
    ∧ (ClipValuesByMinMax (NumericClipFunctor id) 5 1 (some 5) (some 0) 4 nanMachine).map
        (fun s1 => s1.mem 4) = some [none, some 0, some 0, some 0, some 0] := by
  decide

/-- C9 (as amended): range containment, with the comparator of the spec on
values that may be NaN.  The three variants return.  For bounds with `lo ≤ hi`,
every element of the output range of the both-bounds variant whose input is not
a NaN lies in `[lo, hi]`, and is `lo` where the input was below `lo` and `hi`
where it was above `hi`.  For a bound that is not a NaN, every such element of
the lower-only variant is `≥ lo` and of the upper-only variant `≤ hi`.  An
input that is a NaN is returned as it is by the three variants. -/
theorem clamp_range_containment {T K : Type} [LinearOrder K] (val : T → Option K)
    (num_values : Int) (values out_ptr : Nat) (lo hi : T) (s : Machine T)
    (hv : num_values.toNat ≤ (s.mem values).length)
    (ho : num_values.toNat ≤ (s.mem out_ptr).length) :
    (∃ s1, ClipValuesByMinMax (NumericClipFunctor val) num_values values lo hi out_ptr s
        = some s1 ∧
      ∀ (i : Nat) (v : T), (i : Int) < num_values → (s.mem values)[i]? = some v →
        (valLe val lo hi = true → val v ≠ none →
          ∃ w, (s1.mem out_ptr)[i]? = some w ∧ valLe val lo w = true ∧ valLe val w hi = true
            ∧ (valLt val v lo = true → w = lo) ∧ (valLt val hi v = true → w = hi))
        ∧ (val v = none → (s1.mem out_ptr)[i]? = some v))
    ∧ (∃ s1, ClipValuesByMin (NumericClipFunctor val) num_values values lo out_ptr s = some s1 ∧
      ∀ (i : Nat) (v : T), (i : Int) < num_values → (s.mem values)[i]? = some v →
        (val lo ≠ none → val v ≠ none →
          ∃ w, (s1.mem out_ptr)[i]? = some w ∧ valLe val lo w = true)
        ∧ (val v = none → (s1.mem out_ptr)[i]? = some v))
    ∧ (∃ s1, ClipValuesByMax (NumericClipFunctor val) num_values values hi out_ptr s = some s1 ∧
      ∀ (i : Nat) (v : T), (i : Int) < num_values → (s.mem values)[i]? = some v →
        (val hi ≠ none → val v ≠ none →
          ∃ w, (s1.mem out_ptr)[i]? = some w ∧ valLe val w hi = true)
        ∧ (val v = none → (s1.mem out_ptr)[i]? = some v)) := by
  refine ⟨⟨_, ClipValuesByMinMax_eq (NumericClipFunctor val) num_values values out_ptr lo hi s
      hv ho, ?_⟩,
    ⟨_, ClipValuesByMin_eq (NumericClipFunctor val) num_values values out_ptr lo s hv ho, ?_⟩,
    ⟨_, ClipValuesByMax_eq (NumericClipFunctor val) num_values values out_ptr hi s hv ho, ?_⟩⟩
  · intro i v hi' hget
    have hout : ((clipResult (fun v => (NumericClipFunctor val).Min
        ((NumericClipFunctor val).Max v lo) hi) values out_ptr num_values.toNat s).mem
        out_ptr)[i]?
        = some ((NumericClipFunctor val).Min ((NumericClipFunctor val).Max v lo) hi) :=
      clipResult_getElem? _ values out_ptr num_values.toNat s i v (by omega) hget
    constructor
    · intro hle hnn
      obtain ⟨x, hx⟩ := Option.ne_none_iff_exists'.mp hnn
      exact ⟨_, hout, numeric_range val v lo hi x hle hx⟩
    · intro hnan
      rw [hout, (numeric_nan val v lo hi hnan).1]
  · intro i v hi' hget
    have hout : ((clipResult (fun v => (NumericClipFunctor val).Max v lo)
        values out_ptr num_values.toNat s).mem out_ptr)[i]?
        = some ((NumericClipFunctor val).Max v lo) :=
      clipResult_getElem? _ values out_ptr num_values.toNat s i v (by omega) hget
    constructor
    · intro hb hnn
      obtain ⟨x, hx⟩ := Option.ne_none_iff_exists'.mp hnn
      obtain ⟨y, hy⟩ := Option.ne_none_iff_exists'.mp hb
      exact ⟨_, hout, (numeric_one_bound val v lo x y hx hy).1⟩
    · intro hnan
      rw [hout, NumericClipFunctor_Max_nan val v lo hnan]
  · intro i v hi' hget
    have hout : ((clipResult (fun v => (NumericClipFunctor val).Min v hi)
        values out_ptr num_values.toNat s).mem out_ptr)[i]?
        = some ((NumericClipFunctor val).Min v hi) :=
      clipResult_getElem? _ values out_ptr num_values.toNat s i v (by omega) hget
    constructor
    · intro hb hnn
      obtain ⟨x, hx⟩ := Option.ne_none_iff_exists'.mp hnn
      obtain ⟨y, hy⟩ := Option.ne_none_iff_exists'.mp hb
      exact ⟨_, hout, (numeric_one_bound val v hi x y hx hy).2⟩
    · intro hnan
      rw [hout, NumericClipFunctor_Min_nan val v hi hnan]

/-- Witness of C9: `[NaN, 0, 3, 7, 10]` with the bounds 0 and 5, into a second
buffer. -/
theorem clamp_range_containment_witness :
    (∃ s1, ClipValuesByMinMax (NumericClipFunctor id) 5 1 (some 0) (some 5) 4 nanMachine
        = some s1 ∧
      ∀ (i : Nat) (v : Option Int), (i : Int) < 5 → (nanMachine.mem 1)[i]? = some v →
        (valLe id (some (0 : Int)) (some 5) = true → id v ≠ none →
          ∃ w, (s1.mem 4)[i]? = some w ∧ valLe id (some 0) w = true
            ∧ valLe id w (some 5) = true
            ∧ (valLt id v (some 0) = true → w = some 0)
            ∧ (valLt id (some 5) v = true → w = some 5))
        ∧ (id v = none → (s1.mem 4)[i]? = some v))
    ∧ (∃ s1, ClipValuesByMin (NumericClipFunctor id) 5 1 (some 0) 4 nanMachine = some s1 ∧
      ∀ (i : Nat) (v : Option Int), (i : Int) < 5 → (nanMachine.mem 1)[i]? = some v →
        (id (some (0 : Int)) ≠ none → id v ≠ none →
          ∃ w, (s1.mem 4)[i]? = some w ∧ valLe id (some 0) w = true)
        ∧ (id v = none → (s1.mem 4)[i]? = some v))
    ∧ (∃ s1, ClipValuesByMax (NumericClipFunctor id) 5 1 (some 5) 4 nanMachine = some s1 ∧
      ∀ (i : Nat) (v : Option Int), (i : Int) < 5 → (nanMachine.mem 1)[i]? = some v →
        (id (some (5 : Int)) ≠ none → id v ≠ none →
          ∃ w, (s1.mem 4)[i]? = some w ∧ valLe id w (some 5) = true)
        ∧ (id v = none → (s1.mem 4)[i]? = some v)) :=
  clamp_range_containment id 5 1 4 (some 0) (some 5) nanMachine (by decide) (by decide)

/-- Counterexample to C9 as stated: with `lo = 0 ≤ hi = 5`, the both-bounds
output of `[NaN, 0, 3, 7, 10]` is `[NaN, 0, 3, 5, 5]`, whose first element is
neither `≥ lo` nor `≤ hi`; so are the first elements of the lower-only and
upper-only outputs. -/
theorem clamp_range_containment_counterexample :
    valLe id (some (0 : Int)) (some 5) = true
    ∧ (ClipValuesByMinMax (NumericClipFunctor id) 5 1 (some 0) (some 5) 4 nanMachine).map
        (fun s1 => (s1.mem 4,
          (s1.mem 4).map (fun w => (valLe id (some 0) w, valLe id w (some 5)))))
      = some ([none, some 0, some 3, some 5, some 5],
          [(false, false), (true, true), (true, true), (true, true), (true, true)])
    ∧ (ClipValuesByMin (NumericClipFunctor id) 5 1 (some 0) 4 nanMachine).map
        (fun s1 => (s1.mem 4).map (fun w => valLe id (some 0) w))
      = some [false, true, true, true, true]
    ∧ (ClipValuesByMax (NumericClipFunctor id) 5 1 (some 5) 4 nanMachine).map
        (fun s1 => (s1.mem 4).map (fun w => valLe id w (some 5)))
      = some [false, true, true, true, true] := by
  decide

/-- C17 (as amended): the order of the two clamps, with the comparator of the
spec on values that may be NaN.  The both-bounds variant returns.  For
`lo ≤ hi` its output at each index of the range is also the value of the
reverse order, upper clamp first and lower clamp second.  For `lo > hi` and an
input that is not a NaN the two orders differ: the output is `hi` and the
reverse order gives `lo`.  For `lo > hi` and an input that is a NaN both orders
return the input. -/
theorem clamp_order_of_bounds {T K : Type} [LinearOrder K] (val : T → Option K)
    (num_values : Int) (values out_ptr : Nat) (lo hi : T) (s : Machine T)
    (hv : num_values.toNat ≤ (s.mem values).length)
    (ho : num_values.toNat ≤ (s.mem out_ptr).length) :
    ∃ s1, ClipValuesByMinMax (NumericClipFunctor val) num_values values lo hi out_ptr s
        = some s1 ∧
      ∀ (i : Nat) (v : T), (i : Int) < num_values → (s.mem values)[i]? = some v →
        (valLe val lo hi = true →
          (s1.mem out_ptr)[i]?
            = some ((NumericClipFunctor val).Max ((NumericClipFunctor val).Min v hi) lo)
          ∧ (NumericClipFunctor val).Min ((NumericClipFunctor val).Max v lo) hi
            = (NumericClipFunctor val).Max ((NumericClipFunctor val).Min v hi) lo)
        ∧ (valLt val hi lo = true → val v ≠ none →
          (s1.mem out_ptr)[i]? = some hi
          ∧ (NumericClipFunctor val).Max ((NumericClipFunctor val).Min v hi) lo = lo
          ∧ hi ≠ lo)
        ∧ (valLt val hi lo = true → val v = none →
          (s1.mem out_ptr)[i]? = some v
          ∧ (NumericClipFunctor val).Max ((NumericClipFunctor val).Min v hi) lo = v) := by
  refine ⟨_, ClipValuesByMinMax_eq (NumericClipFunctor val) num_values values out_ptr lo hi s
    hv ho, ?_⟩
  intro i v hi' hget
  have hout : ((clipResult (fun v => (NumericClipFunctor val).Min
      ((NumericClipFunctor val).Max v lo) hi) values out_ptr num_values.toNat s).mem out_ptr)[i]?
      = some ((NumericClipFunctor val).Min ((NumericClipFunctor val).Max v lo) hi) :=
    clipResult_getElem? _ values out_ptr num_values.toNat s i v (by omega) hget
  refine ⟨?_, ?_, ?_⟩
  · intro hle
    refine ⟨?_, numeric_comm val v lo hi hle⟩
    rw [hout, numeric_comm val v lo hi hle]
  · intro hdeg hnn
    obtain ⟨x, hx⟩ := Option.ne_none_iff_exists'.mp hnn
    obtain ⟨h1, h2, h3⟩ := numeric_degenerate val v lo hi x hdeg hx
    refine ⟨?_, h2, h3⟩
    rw [hout, h1]
  · intro _ hnan
    refine ⟨?_, (numeric_nan val v lo hi hnan).2⟩
    rw [hout, (numeric_nan val v lo hi hnan).1]

/-- Witness of C17: `[NaN, 0, 3, 7, 10]` with the bounds 0 and 5, and with the
degenerate bounds `lo = 5 > hi = 0`. -/
theorem clamp_order_of_bounds_witness :
    (∃ s1, ClipValuesByMinMax (NumericClipFunctor id) 5 1 (some 0) (some 5) 4 nanMachine
        = some s1 ∧ (s1.mem 4)[3]? = some (some 5)
        ∧ (NumericClipFunctor id).Max ((NumericClipFunctor id).Min (some (7 : Int)) (some 5))
            (some 0) = some 5)
    ∧ (∃ s1, ClipValuesByMinMax (NumericClipFunctor id) 5 1 (some 5) (some 0) 4 nanMachine
        = some s1 ∧ (s1.mem 4)[3]? = some (some 0)
        ∧ (NumericClipFunctor id).Max ((NumericClipFunctor id).Min (some (7 : Int)) (some 0))
            (some 5) = some 5
        ∧ (some (0 : Int)) ≠ some 5) := by
  obtain ⟨s1, h1, hp1⟩ :=
    clamp_order_of_bounds id 5 1 4 (some 0) (some 5) nanMachine (by decide) (by decide)
  obtain ⟨s2, h2, hp2⟩ :=
    clamp_order_of_bounds id 5 1 4 (some 5) (some 0) nanMachine (by decide) (by decide)
  have a := (hp1 3 (some 7) (by decide) (by decide)).1 (by decide)
  have b := (hp2 3 (some 7) (by decide) (by decide)).2.1 (by decide) (by decide)
  exact ⟨⟨s1, h1, a.1.trans (by decide), by decide⟩, ⟨s2, h2, b.1, b.2.1, b.2.2⟩⟩

/-- Counterexample to C17 as stated: with `lo = 5 > hi = 0` and the NaN element
of `[NaN, 0, 3, 7, 10]`, the order of the code yields NaN, not `hi`, and the
reverse order yields NaN, not `lo`: the two orders do not differ. -/
theorem clamp_order_of_bounds_counterexample :
    valLt id (some (0 : Int)) (some 5) = true
    ∧ (ClipValuesByMinMax (NumericClipFunctor id) 5 1 (some 5) (some 0) 4 nanMachine).map
        (fun s1 => (s1.mem 4)[0]?) = some (some none)
    ∧ (NumericClipFunctor id).Max
        ((NumericClipFunctor id).Min (none : Option Int) (some 0)) (some 5) = none := by
  decide

end oneflow
